import Mathlib

/-!
Verification of the CPSC3220-Project3 allocator against its specification.

The repository contains three implementation variants of the same allocator
design:

* variant A: the first half of `src/allocator.c` (`get_size_class`,
  `get_object_size`, `create_page`, `is_small_allocation`, `malloc`, `free`,
  `calloc`, `realloc` with a same-class fast path; per-page free lists;
  large headers `{size_t size; uint32_t magic}` with magic 0xDEADBEEF);
* variant B: the second half of `src/allocator.c` (`roundPageSize`,
  `sizeToIndex`, `allocatePage`, `malloc`, `free`, `calloc`, `realloc`;
  one global free list per size class shared by all pages of the class;
  large headers `{size_t size; size_t mmap_size}`);
* variant C: `src/unnamed/part_002` (`size_to_class`, `class_to_size`,
  `create_page_for_size`, a doubly linked global list of large regions).

All sizes and addresses are modelled as `Nat`; `size_t` arithmetic that can
wrap is taken modulo `2 ^ 64` at the points where the C code can overflow.
Intra-page / intra-class free lists, which the C code threads through the
free cells themselves, are modelled as `List Nat` of the threaded cell
addresses, in the threaded order; pushing and popping list nodes in C
corresponds exactly to consing and uncons-ing here.  The anonymous-mapping
syscall is modelled by an oracle argument (`Option Nat`): `some b` is a
successful page-aligned mapping at base `b`, `none` is `MAP_FAILED`.
-/

set_option maxRecDepth 200000

/-! ## Size classifiers -/

/-- Variant A `get_size_class` (allocator.c lines 39-51): the size class
index for a request, or `-1` for a large request (`n > 1024`). -/
def get_size_class (size : Nat) : Int :=
  if size ≤ 2 then 0
  else if size ≤ 4 then 1
  else if size ≤ 8 then 2
  else if size ≤ 16 then 3
  else if size ≤ 32 then 4
  else if size ≤ 64 then 5
  else if size ≤ 128 then 6
  else if size ≤ 256 then 7
  else if size ≤ 512 then 8
  else if size ≤ 1024 then 9
  else -1

/-- Variant A `get_object_size` (allocator.c lines 55-59): block size of a
size class: 2, 4, then `1 <<< (size_class + 1)`. -/
def get_object_size (size_class : Nat) : Nat :=
  if size_class = 0 then 2
  else if size_class = 1 then 4
  else 2 ^ (size_class + 1)

/-- Variant C `size_to_class` (part_002): identical ladder of comparisons
to variant A's `get_size_class`. -/
def size_to_class (size : Nat) : Int :=
  if size ≤ 2 then 0
  else if size ≤ 4 then 1
  else if size ≤ 8 then 2
  else if size ≤ 16 then 3
  else if size ≤ 32 then 4
  else if size ≤ 64 then 5
  else if size ≤ 128 then 6
  else if size ≤ 256 then 7
  else if size ≤ 512 then 8
  else if size ≤ 1024 then 9
  else -1

/-- Variant C `class_to_size` (part_002): `1 <<< (class_index + 1)`. -/
def class_to_size (class_index : Nat) : Nat := 2 ^ (class_index + 1)

/-- Loop body of variant B `roundPageSize` (allocator.c lines 327-331):
`p` starts at 1 and doubles while `p < size`.  The C loop has no fuel; the
`fuel` argument only bounds the recursion and 64 doublings are enough for
any `size_t` value, so on every input of interest the result equals the C
loop's result. -/
def roundPow2Go (fuel p size : Nat) : Nat :=
  match fuel with
  | 0 => p
  | fuel + 1 => if p < size then roundPow2Go fuel (2 * p) size else p

/-- Variant B `roundPageSize` (allocator.c lines 316-332): clamp the size
up to `sizeof(void *) = 8`, then round up to a power of two. -/
def roundPageSize (size : Nat) : Nat := roundPow2Go 64 1 (max size 8)

/-- Loop of variant B `sizeToIndex` (allocator.c lines 335-346): `min`
starts at `sizeof(void *) = 8` and doubles, `index` counts up, while
`min < size && index < 10`.  `fuel = 10 - index` makes the `index < 10`
bound structural. -/
def sizeToIndexGo (fuel minv index size : Nat) : Nat :=
  match fuel with
  | 0 => index
  | fuel + 1 =>
    if minv < size then sizeToIndexGo fuel (2 * minv) (index + 1) size
    else index

/-- Variant B `sizeToIndex` (allocator.c lines 335-346). -/
def sizeToIndex (size : Nat) : Nat := sizeToIndexGo 10 8 0 size

/-- The page mask applied on release: `addr & ~(PAGE_SIZE - 1)` with
`PAGE_SIZE = 4096`, i.e. rounding the address down to a page boundary. -/
def maskPage (p : Nat) : Nat := p / 4096 * 4096

example : get_size_class 1 = 0 := by decide
example : get_size_class 1024 = 9 := by decide
example : get_size_class 1025 = -1 := by decide
example : get_object_size 9 = 1024 := by decide
example : roundPageSize 1 = 8 := by decide
example : roundPageSize 3 = 8 := by decide
example : roundPageSize 1024 = 1024 := by decide
example : sizeToIndex 8 = 0 := by decide
example : sizeToIndex 1024 = 7 := by decide
example : maskPage 4136 = 4096 := by decide

/-- Helper: `get_object_size` is monotone on the ten valid class indices. -/
theorem get_object_size_mono : ∀ k, k ≤ 9 → ∀ j, j ≤ k →
    get_object_size j ≤ get_object_size k := by
  decide

/-- Helper: on the valid class indices, `get_object_size i = 2 ^ (i + 1)`. -/
theorem get_object_size_eq_pow : ∀ i, i ≤ 9 →
    get_object_size i = 2 ^ (i + 1) := by
  decide

/-! ## Claim C7: the size classifier -/

set_option maxRecDepth 16384 in
/-- Helper: for `1 ≤ n ≤ 1024`, `get_size_class n` is a natural number at
most 9, its class holds `n`, and every smaller class is too small. -/
theorem gsc_smallest : ∀ n, n ≤ 1024 → 1 ≤ n →
    get_size_class n = ((get_size_class n).toNat : Int) ∧
    (get_size_class n).toNat ≤ 9 ∧
    n ≤ get_object_size (get_size_class n).toNat ∧
    ∀ j, j < (get_size_class n).toNat → get_object_size j < n := by
  decide

/-- Helper: every request above 1024 bytes is flagged large (`-1`). -/
theorem gsc_large : ∀ n, 1024 < n → get_size_class n = -1 := by
  intro n h
  unfold get_size_class
  repeat rw [if_neg (show ¬ _ ≤ _ by omega)]

/-- Helper: `get_size_class` is monotone below 1024, derived from the
smallest-class characterisation. -/
theorem gsc_mono : ∀ b, b ≤ 1024 → ∀ a, a ≤ b →
    get_size_class a ≤ get_size_class b := by
  intro b hb a hab
  by_cases ha : 1 ≤ a
  · obtain ⟨ea, _, _, hmina⟩ := gsc_smallest a (le_trans hab hb) ha
    obtain ⟨eb, _, hsb, _⟩ := gsc_smallest b hb (le_trans ha hab)
    rw [ea, eb]
    have hij : (get_size_class a).toNat ≤ (get_size_class b).toNat := by
      by_contra hcon
      push_neg at hcon
      have := hmina _ hcon
      omega
    exact_mod_cast hij
  · have ha0 : a = 0 := by omega
    subst ha0
    rw [show get_size_class 0 = 0 from rfl]
    by_cases hb1 : 1 ≤ b
    · obtain ⟨eb, _, _, _⟩ := gsc_smallest b hb hb1
      rw [eb]
      exact Int.ofNat_nonneg _
    · have : b = 0 := by omega
      subst this
      decide

/-- Claim C7 (amended): in the variants whose classes are
{2, 4, 8, ..., 1024} (variant A's `get_size_class` / `get_object_size` and
variant C's identical `size_to_class` / `class_to_size`), `get_size_class n`
for `1 ≤ n ≤ 1024` is the index of the smallest of the ten classes whose
block size is at least `n`; in particular classes 0 and 1 catch `n = 2` and
`n = 3`, the map is monotone up to 1024, every `n > 1024` is flagged large
(`-1`), and `get_object_size i = 2 ^ (i + 1)` exactly on `i ≤ 9`.  (The
variant B pipeline `sizeToIndex ∘ roundPageSize` does not satisfy this:
see the counterexample.) -/
theorem classifierSmallestClass_A :
    (∀ n, n ≤ 1024 → 1 ≤ n →
      get_size_class n = ((get_size_class n).toNat : Int) ∧
      (get_size_class n).toNat ≤ 9 ∧
      n ≤ get_object_size (get_size_class n).toNat ∧
      ∀ j, j < (get_size_class n).toNat → get_object_size j < n) ∧
    (get_size_class 2 = 0 ∧ get_size_class 3 = 1) ∧
    (∀ b, b ≤ 1024 → ∀ a, a ≤ b → get_size_class a ≤ get_size_class b) ∧
    (∀ n, 1024 < n → get_size_class n = -1) ∧
    (∀ i, i ≤ 9 → get_object_size i = 2 ^ (i + 1) ∧
      class_to_size i = 2 ^ (i + 1)) ∧
    (∀ n, size_to_class n = get_size_class n) :=
  ⟨gsc_smallest, by decide, gsc_mono, gsc_large, by decide, fun n => rfl⟩

/-- Claim C7 witness: the amended classifier facts applied at the concrete
request sizes 7 and 3. -/
theorem classifierSmallestClass_A_witness :
    (7 ≤ 1024 ∧ 1 ≤ 7) ∧ 7 ≤ get_object_size (get_size_class 7).toNat ∧
    get_size_class 3 = 1 ∧ get_size_class 2000 = -1 :=
  ⟨by decide, (classifierSmallestClass_A.1 7 (by decide) (by decide)).2.2.1,
    classifierSmallestClass_A.2.1.2,
    classifierSmallestClass_A.2.2.2.1 2000 (by decide)⟩

/-- Claim C7 counterexample: the cited variant B classifier `sizeToIndex`
(fed through `roundPageSize`, as variant B's `malloc` does) maps the
request size 3 to index 0 with block size 8, not to the claimed class 1 of
block size 4: its classes start at the word size 8, not at 2. -/
theorem classifierWordMin_B_cex :
    sizeToIndex 3 = 0 ∧ ¬ sizeToIndex 3 = 1 ∧
    roundPageSize 3 = 8 ∧ ¬ roundPageSize 3 = 4 ∧
    sizeToIndex (roundPageSize 3) = 0 ∧ ¬ sizeToIndex (roundPageSize 3) = 1 := by
  decide

/-! ## Variant A release-path classification and the large header -/

/-- Variant A `is_small_allocation` (allocator.c lines 103-123), as a
predicate on the three header fields the C code reads at the masked page
address.  The C `&&` chain short-circuits, so when `object_size` already
fails the bounds check the remaining fields are irrelevant; the model
therefore takes all three fields as arguments and quantifying over the
last two captures any bytes that happen to sit there. -/
def is_small_allocation (object_size num_objects free_count : Nat) : Bool :=
  decide (2 ≤ object_size ∧ object_size ≤ 1024 ∧
    0 < num_objects ∧ num_objects ≤ 4096 ∧ free_count ≤ num_objects ∧
    (object_size = 2 ∨ object_size = 4 ∨
      (8 ≤ object_size ∧ object_size ≤ 1024 ∧
        object_size &&& (object_size - 1) = 0)))

/-- Variant A large-path mapping length (allocator.c lines 133-135):
`alloc_size = ceil((size + sizeof(large_header_t)) / PAGE_SIZE) * PAGE_SIZE`
with `sizeof(large_header_t) = 16`. -/
def allocSizeA (size : Nat) : Nat := (size + 16 + 4095) / 4096 * 4096

/-- Variant B large-path mapping length (allocator.c lines 440-441):
`mmap_size = (sizeof(LargeHeader) + size + PAGE_SIZE - 1) & ~(PAGE_SIZE - 1)`
with `sizeof(LargeHeader) = 16`; the bitmask rounds up to a multiple of
4096. -/
def mmapSizeB (size : Nat) : Nat := (16 + size + 4095) / 4096 * 4096

/-- The branch taken by variant A `free` (allocator.c lines 182-205). -/
inductive FreeActionA where
  | pushSmall
  | unmapLarge
  | noop
deriving DecidableEq

/-- Variant A `free` dispatch (allocator.c lines 188-204): if the masked
header fields pass `is_small_allocation` the cell is pushed onto that
page's free list; otherwise the word before the pointer is read as a large
header and the region is unmapped only when its magic matches
`LARGE_ALLOC_MAGIC = 0xDEADBEEF`. -/
def freeActionA (object_size num_objects free_count magic : Nat) : FreeActionA :=
  if is_small_allocation object_size num_objects free_count then
    FreeActionA.pushSmall
  else if magic = 0xDEADBEEF then FreeActionA.unmapLarge
  else FreeActionA.noop

/-- The branch taken by variant B `free` (allocator.c lines 462-491). -/
inductive FreeActionB where
  | pushSmall (index : Nat)
  | unmapLarge
  | noop
deriving DecidableEq

/-- Variant B `free` dispatch (allocator.c lines 467-490): the first
`size_t` at the masked page address is read as `block_size`; when it is in
`(0, 1024]` the cell is pushed onto the global class list, otherwise the
16 bytes before the pointer are read as a `LargeHeader` and the region is
unmapped when its `mmap_size` is positive. -/
def freeActionB (block_size mmap_size : Nat) : FreeActionB :=
  if 0 < block_size ∧ block_size ≤ 1024 then
    FreeActionB.pushSmall (sizeToIndex block_size)
  else if 0 < mmap_size then FreeActionB.unmapLarge
  else FreeActionB.noop

/-! ## Claim C10: large pointers are never misclassified on release -/

/-- Claim C10: a live pointer issued by the large path is never treated as
a small cell by `free`.  In variant A the masked page address is the
mapping base (`maskPage (b + 16) = b` for the page-aligned base `b`), the
`object_size` position there holds the recorded mapping length
`allocSizeA n > 1024`, so `is_small_allocation` rejects it whatever bytes
follow, and the region is unmapped only after the 0xDEADBEEF magic check
succeeds.  In variant B the `block_size` position holds the requested size
`n > 1024`, so the small branch is skipped and the positive `mmap_size`
leads to the unmap. -/
theorem largeNeverMisclassified :
    ∀ n, 1024 < n →
      1024 < allocSizeA n ∧
      (∀ num_objects free_count,
        is_small_allocation (allocSizeA n) num_objects free_count = false) ∧
      (∀ num_objects free_count,
        freeActionA (allocSizeA n) num_objects free_count 0xDEADBEEF =
          FreeActionA.unmapLarge) ∧
      (∀ b, b % 4096 = 0 → maskPage (b + 16) = b) ∧
      0 < mmapSizeB n ∧
      freeActionB n (mmapSizeB n) = FreeActionB.unmapLarge := by
  intro n hn
  have hbig : 1024 < allocSizeA n := by
    unfold allocSizeA
    omega
  have hsmall : ∀ num_objects free_count,
      is_small_allocation (allocSizeA n) num_objects free_count = false := by
    intro no fc
    simp only [is_small_allocation, decide_eq_false_iff_not]
    rintro ⟨-, h2, -⟩
    omega
  refine ⟨hbig, hsmall, ?_, ?_, ?_, ?_⟩
  · intro no fc
    unfold freeActionA
    rw [hsmall no fc]
    simp
  · intro b hb
    unfold maskPage
    omega
  · unfold mmapSizeB
    omega
  · unfold freeActionB
    rw [if_neg (by omega), if_pos (by unfold mmapSizeB; omega)]

/-- Claim C10 witness: the dispatch facts applied at the concrete large
request size 2000. -/
theorem largeNeverMisclassified_witness :
    1024 < 2000 ∧
    is_small_allocation (allocSizeA 2000) 77 3 = false ∧
    freeActionA (allocSizeA 2000) 77 3 0xDEADBEEF = FreeActionA.unmapLarge ∧
    freeActionB 2000 (mmapSizeB 2000) = FreeActionB.unmapLarge :=
  ⟨by decide, (largeNeverMisclassified 2000 (by decide)).2.1 77 3,
    (largeNeverMisclassified 2000 (by decide)).2.2.1 77 3,
    (largeNeverMisclassified 2000 (by decide)).2.2.2.2.2⟩

/-! ## Claim C2: the realloc fast path -/

/-- The path taken by variant A `realloc` after recovering `old_size`
(allocator.c lines 254-266): `keep` is the immediate `return ptr` (no
allocation, copy, or release happens), `copyFreeNew` is the
allocate-copy-free tail (lines 268-281). -/
inductive ReallocPathA where
  | keep
  | copyFreeNew
deriving DecidableEq

/-- Variant A `realloc` branch structure (allocator.c lines 254-266):
same-class small blocks and shrinking large blocks keep the pointer. -/
def reallocPathA (old_size size : Nat) : ReallocPathA :=
  if size ≤ 1024 ∧ old_size ≤ 1024 then
    if get_size_class old_size = get_size_class size then ReallocPathA.keep
    else ReallocPathA.copyFreeNew
  else if 1024 < size ∧ 1024 < old_size then
    if size ≤ old_size then ReallocPathA.keep
    else ReallocPathA.copyFreeNew
  else ReallocPathA.copyFreeNew

/-- Claim C2 (amended): variant A's `realloc` returns `p` itself unchanged
(the `keep` branch: no allocation, no copy, no release) whenever `n ≤ c`
and the classes of `n` and of the capacity `c` agree (for a small block
the recovered `old_size` is the page's `object_size`, i.e. exactly the
capacity and the class of the original allocation), or both sizes are
large with `n ≤ c`.  (Variant B's `realloc`, also cited by the claim, has
no such fast path: see the counterexample.) -/
theorem reallocFastPath_A :
    ∀ n c, 0 < n →
      ((n ≤ c ∧ c ≤ 1024 ∧ get_size_class n = get_size_class c) ∨
        (1024 < n ∧ 1024 < c ∧ n ≤ c)) →
      reallocPathA c n = ReallocPathA.keep := by
  intro n c _ h
  unfold reallocPathA
  rcases h with ⟨hnc, hc, hcls⟩ | ⟨hn, hc, hnc⟩
  · rw [if_pos ⟨by omega, hc⟩, if_pos hcls.symm]
  · rw [if_neg (by rintro ⟨h1, -⟩; omega), if_pos ⟨hn, hc⟩, if_pos hnc]

/-- Claim C2 witness: shrinking a 64-byte-class block to 40 bytes keeps
the pointer (same class 5), and shrinking a large block keeps it too. -/
theorem reallocFastPath_A_witness :
    (40 ≤ 64 ∧ get_size_class 40 = get_size_class 64) ∧
    reallocPathA 64 40 = ReallocPathA.keep ∧
    reallocPathA 4080 2000 = ReallocPathA.keep :=
  ⟨by decide,
    reallocFastPath_A 40 64 (by decide) (Or.inl (by decide)),
    reallocFastPath_A 2000 4080 (by decide) (Or.inr (by decide))⟩

/-! ## Byte-memory primitives -/

/-- `memset(p, 0, n)` on a byte memory modelled as `Nat → Nat`. -/
def memsetZero (mem : Nat → Nat) (p n : Nat) : Nat → Nat :=
  fun a => if p ≤ a ∧ a < p + n then 0 else mem a

/-- A fresh `MAP_ANONYMOUS` mapping of `len` bytes at `base` reads as
zeroes. -/
def mmapZero (mem : Nat → Nat) (base len : Nat) : Nat → Nat :=
  fun a => if base ≤ a ∧ a < base + len then 0 else mem a

/-- `memcpy(dst, src, n)` on a byte memory.  Every source byte is read
from the pre-call memory, which coincides with C `memcpy` exactly when the
two ranges do not overlap (the only case in which C defines it; the
allocator only copies between a live block and a freshly returned one). -/
def memcpyM (mem : Nat → Nat) (dst src n : Nat) : Nat → Nat :=
  fun a => if dst ≤ a ∧ a < dst + n then mem (src + (a - dst)) else mem a

/-- Byte written by user code. -/
def writeByte (mem : Nat → Nat) (a v : Nat) : Nat → Nat :=
  fun x => if x = a then v else mem x

/-- `SIZE_MAX` for the 64-bit `size_t` of the target platform. -/
def SIZE_MAX : Nat := 2 ^ 64 - 1

/-! ## Claim C4: zeroed allocation -/

/-- The zero-operand and overflow guard of `calloc` in `src/libmyalloc.c`
lines 37-47: `total_size = nmemb * size` in wrapping `size_t` arithmetic,
rejected when `total_size / nmemb != size`; returns the total to allocate
otherwise. -/
def callocGuardLib (nmemb size : Nat) : Option Nat :=
  if nmemb = 0 ∨ size = 0 then none
  else
    let total_size := nmemb * size % 2 ^ 64
    if total_size / nmemb ≠ size then none else some total_size

/-- The guard of variant A `calloc` (allocator.c lines 207-217): zero
operands rejected, overflow rejected via `nmemb > SIZE_MAX / size`. -/
def callocGuardA (nmemb size : Nat) : Option Nat :=
  if nmemb = 0 ∨ size = 0 then none
  else if SIZE_MAX / size < nmemb then none
  else some (nmemb * size)

/-- `calloc` tail common to libmyalloc and variant A: allocate the guarded
total via `malloc` (modelled by the oracle `mres`), and `memset` it to
zero on success (libmyalloc.c lines 49-53, allocator.c lines 219-224). -/
def callocZeroed (guard : Option Nat) (mres : Nat → Option Nat)
    (mem : Nat → Nat) : Option Nat × (Nat → Nat) :=
  match guard with
  | none => (none, mem)
  | some total =>
    match mres total with
    | none => (none, mem)
    | some p => (some p, memsetZero mem p total)

/-- Claim C4 (amended): the `calloc` of libmyalloc.c and of variant A
return null when either operand is zero, return null without allocating
when the 64-bit product wraps (libmyalloc detects this exactly by the
product-divided-by-one-operand check, variant A by the equivalent
`SIZE_MAX / size` bound), otherwise allocate exactly `k·m` bytes and every
byte of the returned block reads as 0.  (Variant B's `calloc`, also cited
by the claim, performs neither check: see the counterexample.) -/
theorem callocGuardsAndZeroing :
    (∀ nmemb size : Nat, nmemb = 0 ∨ size = 0 →
      callocGuardLib nmemb size = none ∧ callocGuardA nmemb size = none) ∧
    (∀ nmemb size : Nat, nmemb ≠ 0 → size ≠ 0 → 2 ^ 64 ≤ nmemb * size →
      callocGuardLib nmemb size = none ∧ callocGuardA nmemb size = none) ∧
    (∀ nmemb size : Nat, nmemb ≠ 0 → size ≠ 0 → nmemb * size < 2 ^ 64 →
      callocGuardLib nmemb size = some (nmemb * size) ∧
      callocGuardA nmemb size = some (nmemb * size)) ∧
    (∀ guard mres mem total p, guard = some total → mres total = some p →
      ∀ a, p ≤ a → a < p + total →
        (callocZeroed guard mres mem).2 a = 0) := by
  refine ⟨?_, ?_, ?_, ?_⟩
  · intro nmemb size h
    constructor
    · unfold callocGuardLib
      rw [if_pos h]
    · unfold callocGuardA
      rw [if_pos h]
  · intro nmemb size hn hs hbig
    have hn0 : 0 < nmemb := Nat.pos_of_ne_zero hn
    have hs0 : 0 < size := Nat.pos_of_ne_zero hs
    constructor
    · unfold callocGuardLib
      rw [if_neg (by tauto)]
      have htot : nmemb * size % 2 ^ 64 < nmemb * size :=
        lt_of_lt_of_le (Nat.mod_lt _ (by norm_num)) hbig
      rw [if_pos]
      intro hdiv
      have : nmemb * size ≤ nmemb * size % 2 ^ 64 := by
        have := (Nat.le_div_iff_mul_le hn0).mp (le_of_eq hdiv.symm)
        calc nmemb * size = size * nmemb := Nat.mul_comm _ _
          _ ≤ _ := this
      omega
    · unfold callocGuardA
      rw [if_neg (by tauto), if_pos]
      have : SIZE_MAX < nmemb * size := by
        unfold SIZE_MAX
        omega
      exact (Nat.div_lt_iff_lt_mul hs0).mpr this
  · intro nmemb size hn hs hsmall
    have hn0 : 0 < nmemb := Nat.pos_of_ne_zero hn
    have hs0 : 0 < size := Nat.pos_of_ne_zero hs
    constructor
    · unfold callocGuardLib
      rw [if_neg (by tauto)]
      have hmod : nmemb * size % 2 ^ 64 = nmemb * size := Nat.mod_eq_of_lt hsmall
      simp only [hmod]
      rw [if_neg]
      simp only [ne_eq, not_not]
      exact Nat.mul_div_cancel_left size hn0
    · unfold callocGuardA
      rw [if_neg (by tauto), if_neg]
      simp only [not_lt]
      have : nmemb * size ≤ SIZE_MAX := by
        unfold SIZE_MAX
        omega
      exact (Nat.le_div_iff_mul_le hs0).mpr (by
        calc nmemb * size = size * nmemb := Nat.mul_comm _ _
          _ ≤ _ := by rwa [Nat.mul_comm] at this)
  · intro guard mres mem total p hg hm a ha1 ha2
    subst hg
    simp only [callocZeroed, hm, memsetZero]
    rw [if_pos ⟨ha1, ha2⟩]

/-- Claim C4 witness: the guards and the zeroing applied at concrete
inputs: zero operand, the overflowing product `2 ^ 32 · 2 ^ 32`, and the
in-range product `16 · 4` zeroed at byte 120 of a block at 100. -/
theorem callocGuardsAndZeroing_witness :
    ((0 : Nat) = 0 ∨ (5 : Nat) = 0) ∧ callocGuardLib 0 5 = none ∧
    callocGuardA (2 ^ 32) (2 ^ 32) = none ∧
    callocGuardLib 16 4 = some 64 ∧
    (callocZeroed (callocGuardLib 16 4) (fun _ => some 100)
      (fun _ => 37)).2 120 = 0 :=
  ⟨Or.inl rfl,
    (callocGuardsAndZeroing.1 0 5 (Or.inl rfl)).1,
    (callocGuardsAndZeroing.2.1 (2 ^ 32) (2 ^ 32) (by decide) (by decide)
      (by norm_num)).2,
    by decide,
    callocGuardsAndZeroing.2.2.2 (callocGuardLib 16 4) (fun _ => some 100)
      (fun _ => 37) 64 100 (by decide) rfl 120 (by decide) (by decide)⟩

/-! ## Claim C6: resize preserves the common prefix -/

/-- The allocate-copy-free tail of variant A `realloc` (allocator.c lines
268-281), given the recovered `old_size` and the result of the inner
`malloc` (`mres`): on `malloc` failure return null at once (the old block
is not freed and no byte is written); on success copy
`copy_size = min size old_size` bytes and free the old block (neither the
`free` of a small cell nor `munmap` rewrites the new block's bytes). -/
def reallocCopyA (mem : Nat → Nat) (p old_size size : Nat)
    (mres : Option Nat) : Option Nat × (Nat → Nat) :=
  match mres with
  | none => (none, mem)
  | some q => (some q, memcpyM mem q p (min size old_size))

/-- Claim C6 (amended): for variant A's `realloc` (whose recovered
`old_size` is exactly the capacity: the page's `object_size` for a small
block, `header.size - 16` for a large one), a failing inner allocation
returns null with the memory — hence the old block — untouched, and a
successful one returns `q` whose first `min old_size size` bytes equal the
pre-call bytes of `p`, provided the two ranges are disjoint (which a
freshly issued block is).  (Variant B's large path, also cited, recovers
the originally requested size instead of the capacity: see the
counterexample.) -/
theorem reallocPreservesPrefix_A :
    (∀ mem p old_size size,
      reallocCopyA mem p old_size size none = (none, mem)) ∧
    (∀ mem p old_size size q,
      q + min size old_size ≤ p ∨ p + min size old_size ≤ q →
      ∀ i, i < min old_size size →
        (reallocCopyA mem p old_size size (some q)).2 (q + i) = mem (p + i)) := by
  constructor
  · intro mem p old_size size
    rfl
  · intro mem p old_size size q _ i hi
    unfold reallocCopyA memcpyM
    simp only
    rw [if_pos ⟨Nat.le_add_right _ _, by omega⟩]
    congr 1
    omega

/-- Claim C6 witness: growing an 8-byte block at 100 into a disjoint block
at 300 preserves byte 5, and a failed inner allocation changes nothing. -/
theorem reallocPreservesPrefix_A_witness :
    reallocCopyA (fun a => a + 1) 100 8 200 none = (none, fun a => a + 1) ∧
    (300 + min 200 8 ≤ 100 ∨ 100 + min 200 8 ≤ 300) ∧
    (reallocCopyA (fun a => a + 1) 100 8 200 (some 300)).2 (300 + 5) =
      (fun a : Nat => a + 1) (100 + 5) :=
  ⟨reallocPreservesPrefix_A.1 (fun a => a + 1) 100 8 200,
    Or.inr (by decide),
    reallocPreservesPrefix_A.2 (fun a => a + 1) 100 8 200 300
      (Or.inr (by decide)) 5 (by decide)⟩

/-! ## Variant B: global per-class free lists (allocator.c second half) -/

/-- A variant B small page: `PageHeader` fields that stay meaningful after
creation (`block_size`; the page's identity is its base address).  The
`free_list` field of the C header is written once at creation and never
consulted again — all free-list state lives in the global `allFreeLists`. -/
structure SmallPageB where
  base : Nat
  block_size : Nat
deriving DecidableEq

/-- A variant B live large mapping: the `LargeHeader` written at the
mapping base (requested `size`, mapped `mmap_size`).  Variant B keeps no
list of large regions; this list only records which mappings exist so the
masked header reads of `free` / `realloc` can be answered. -/
structure LargeB where
  base : Nat
  size : Nat
  mmap_size : Nat
deriving DecidableEq

/-- Variant B global state: `allFreeLists[11]` (the per-class free lists,
each a chain threaded through free cells of every page of the class) and
`pageLists[11]` (allocator.c lines 308-309), plus the live large
mappings. -/
structure StateB where
  allFreeLists : List (List Nat)
  pageLists : List (List SmallPageB)
  larges : List LargeB
deriving DecidableEq

/-- Variant B initial state: all lists null. -/
def initB : StateB :=
  ⟨List.replicate 11 [], List.replicate 11 [], []⟩

/-- Variant B `allocatePage` (allocator.c lines 350-397) at mapping base
`base`: prepend the page header to `pageLists[index]`, thread all
`(4096 - 24) / block_size` cells in ascending address order, and splice
the new chain in front of the old `allFreeLists[index]` (the last new
cell's link is overwritten with the old list head, lines 393-396). -/
def allocatePageB (st : StateB) (block_size index base : Nat) : StateB :=
  let newPages :=
    st.pageLists.set index (⟨base, block_size⟩ :: st.pageLists.getD index [])
  let st1 := { st with pageLists := newPages }
  let blocks := (4096 - 24) / block_size
  if blocks = 0 then st1
  else
    let newChain :=
      (List.range blocks).map (fun i => base + 24 + i * block_size) ++
        st1.allFreeLists.getD index []
    { st1 with allFreeLists := st1.allFreeLists.set index newChain }

/-- Variant B `malloc` (allocator.c lines 403-458).  Returns the result,
the new state, and the anonymous mapping created (base, length), if any.
A zero request is upgraded to 1 byte (lines 412-414).  Small requests pop
the head of the class's global free list, provisioning a page first when
the list is empty; large requests map `mmapSizeB size` bytes, install the
header, and return `base + 16`. -/
def mallocB (st : StateB) (size : Nat) (fresh : Option Nat) :
    Option Nat × StateB × Option (Nat × Nat) :=
  let size := if size = 0 then 1 else size
  if size ≤ 1024 then
    let block_size := roundPageSize size
    let index := sizeToIndex block_size
    if st.allFreeLists.getD index [] = [] then
      match fresh with
      | none => (none, st, none)
      | some b =>
        let st1 := allocatePageB st block_size index b
        match st1.allFreeLists.getD index [] with
        | [] => (none, st1, some (b, 4096))
        | a :: tl =>
          (some a,
            { st1 with allFreeLists := st1.allFreeLists.set index tl },
            some (b, 4096))
    else
      match st.allFreeLists.getD index [] with
      | [] => (none, st, none)
      | a :: tl =>
        (some a, { st with allFreeLists := st.allFreeLists.set index tl }, none)
  else
    match fresh with
    | none => (none, st, none)
    | some b =>
      (some (b + 16),
        { st with larges := ⟨b, size, mmapSizeB size⟩ :: st.larges },
        some (b, mmapSizeB size))

/-- The `size_t` read from the masked page address `p & ~(PAGE_SIZE - 1)`
interpreted as `PageHeader.block_size` (allocator.c lines 467-471): the
`block_size` of the small page at that base, or the `size` field of a
large mapping whose base coincides, or 0 for memory this model does not
track. -/
def maskedBlockSizeB (st : StateB) (p : Nat) : Nat :=
  match st.pageLists.flatten.find? (fun pg => pg.base == maskPage p) with
  | some pg => pg.block_size
  | none =>
    match st.larges.find? (fun lg => lg.base == maskPage p) with
    | some lg => lg.size
    | none => 0

/-- Variant B `free` (allocator.c lines 462-491): when the masked
`block_size` is in `(0, 1024]`, push the cell onto the global class list
`allFreeLists[sizeToIndex block_size]`; otherwise read the `LargeHeader`
at `p - 16` and unmap `mmap_size` bytes when positive. -/
def freeB (st : StateB) (p : Nat) : StateB :=
  let bs := maskedBlockSizeB st p
  if 0 < bs ∧ bs ≤ 1024 then
    let index := sizeToIndex bs
    { st with allFreeLists :=
        st.allFreeLists.set index (p :: st.allFreeLists.getD index []) }
  else
    { st with larges :=
        st.larges.filter (fun lg => !(lg.base == p - 16 && 0 < lg.mmap_size)) }

/-- Apply the memory effect of an anonymous mapping event: a fresh
mapping reads as zeroes. -/
def applyMapEvent (mem : Nat → Nat) (evt : Option (Nat × Nat)) : Nat → Nat :=
  match evt with
  | none => mem
  | some (b, len) => mmapZero mem b len

/-- Variant B `calloc` (allocator.c lines 495-506): no zero-operand check
and no overflow check; `total = mem_block * size` in wrapping `size_t`
arithmetic is passed straight to `malloc` and zeroed on success. -/
def callocB (st : StateB) (mem : Nat → Nat) (mem_block size : Nat)
    (fresh : Option Nat) : Option Nat × StateB × (Nat → Nat) :=
  let total := mem_block * size % 2 ^ 64
  match mallocB st total fresh with
  | (none, st1, evt) => (none, st1, applyMapEvent mem evt)
  | (some p, st1, evt) =>
    (some p, st1, memsetZero (applyMapEvent mem evt) p total)

/-- Variant B `realloc` (allocator.c lines 510-558): null pointer acts as
`malloc`, zero size as `free`; otherwise a new block is always allocated
(there is no same-class fast path), `min size old_size` bytes are copied
where `old_size` is the masked page's `block_size` for a small block and
the `LargeHeader.size` (the originally requested size, not the mapped
capacity) for a large one, and the old block is freed. -/
def reallocB (st : StateB) (mem : Nat → Nat) (p size : Nat)
    (fresh : Option Nat) : Option Nat × StateB × (Nat → Nat) :=
  if p = 0 then
    match mallocB st size fresh with
    | (r, st1, evt) => (r, st1, applyMapEvent mem evt)
  else if size = 0 then (none, freeB st p, mem)
  else
    match mallocB st size fresh with
    | (none, st1, evt) => (none, st1, applyMapEvent mem evt)
    | (some q, st1, evt) =>
      let mem1 := applyMapEvent mem evt
      let bs := maskedBlockSizeB st1 p
      let old_size :=
        if 0 < bs ∧ bs ≤ 1024 then bs
        else
          match st1.larges.find? (fun lg => lg.base == p - 16) with
          | some lg => lg.size
          | none => 0
      (some q, freeB st1 p, memcpyM mem1 q p (min size old_size))

/-- A call step against the variant B allocator, for replaying concrete
traces. -/
inductive OpB where
  | alloc (n : Nat) (fresh : Option Nat)
  | release (p : Nat)

/-- Replay a list of variant B calls, collecting each `malloc` result. -/
def runB (st : StateB) : List OpB → StateB × List (Option Nat)
  | [] => (st, [])
  | OpB.alloc n f :: ops =>
    let r := mallocB st n f
    let rest := runB r.2.1 ops
    (rest.1, r.1 :: rest.2)
  | OpB.release p :: ops =>
    let rest := runB (freeB st p) ops
    (rest.1, none :: rest.2)

/-! ## Counterexamples against variant B (claims C1, C2, C3, C4, C6) -/

example : (mallocB initB 1024 (some 4096)).1 = some 4120 := by decide
example :
    (runB initB [OpB.alloc 1024 (some 4096), OpB.alloc 1024 none,
      OpB.alloc 1024 none, OpB.alloc 1024 (some 8192)]).2 =
    [some 4120, some 5144, some 6168, some 8216] := by decide

/-- Claim C1 counterexample: in the cited variant B code there is no
per-page free list to push onto — `free` pushes the cell onto the global
class list.  Concretely: three 1024-byte allocations exhaust the page at
4096, a fourth provisions the page at 8192, and releasing cell 4120 (carved
from the first page) threads it in front of the second page's remaining
cells 9240 and 10264, so the class-7 free list holds addresses of two
different pages and the freed cell's successor lies in another page. -/
theorem crossPageThreading_B_cex :
    ((runB initB [OpB.alloc 1024 (some 4096), OpB.alloc 1024 none,
      OpB.alloc 1024 none, OpB.alloc 1024 (some 8192),
      OpB.release 4120]).1.allFreeLists.getD 7 [] = [4120, 9240, 10264]) ∧
    maskPage 4120 = 4096 ∧ maskPage 9240 = 8192 ∧
    ¬ maskPage 4120 = maskPage 9240 := by
  decide

/-- Claim C2 counterexample: variant B's `realloc` has no fast path.
`p = malloc(64)` is the cell 4120 of block size 64 (class index 3);
`realloc(p, 40)` has `40 ≤ 64` and the same class
(`roundPageSize 40 = roundPageSize 64 = 64`), yet it returns the fresh
cell 4184, not `p`. -/
theorem reallocAlwaysCopies_B_cex :
    (mallocB initB 64 (some 4096)).1 = some 4120 ∧
    roundPageSize 40 = 64 ∧ roundPageSize 64 = 64 ∧ 40 ≤ 64 ∧
    (reallocB (mallocB initB 64 (some 4096)).2.1 (fun _ => 0) 4120 40
      none).1 = some 4184 ∧
    ¬ (reallocB (mallocB initB 64 (some 4096)).2.1 (fun _ => 0) 4120 40
      none).1 = some 4120 := by
  decide

/-- Claim C3 counterexample: variant B's `malloc` (cited lines 403-414)
upgrades a zero-byte request to one byte and returns a fresh 8-byte cell,
allocating a page — the allocator state changes. -/
theorem mallocZeroAllocates_B_cex :
    (mallocB initB 0 (some 4096)).1 = some 4120 ∧
    ¬ (mallocB initB 0 (some 4096)).1 = none ∧
    ¬ (mallocB initB 0 (some 4096)).2.1 = initB := by
  decide

/-- Claim C4 counterexample: variant B's `calloc` (cited lines 495-506)
checks neither for zero operands nor for multiplicative overflow: with
both operands `2 ^ 32` the 64-bit product wraps to 0, which `malloc`
upgrades to 1 byte, and a non-null pointer is returned; a zero operand
also yields a non-null pointer. -/
theorem callocNoChecks_B_cex :
    ¬ (2 ^ 32 : Nat) = 0 ∧ ¬ ((2 ^ 32 : Nat) * 2 ^ 32 < 2 ^ 64) ∧
    (2 ^ 32 : Nat) * 2 ^ 32 % 2 ^ 64 = 0 ∧
    (callocB initB (fun _ => 0) (2 ^ 32) (2 ^ 32) (some 4096)).1 =
      some 4120 ∧
    (callocB initB (fun _ => 0) 0 5 (some 4096)).1 = some 4120 := by
  decide

/-- Claim C6 counterexample: variant B records the originally requested
size in the large header and its `realloc` copies only
`min(requested, n)` bytes, not `min(old_capacity, n)`.  With
`p = malloc(1030)` at 4112 (capacity `4096 - 16 = 4080`), byte 1500 of
`p` set to 7, and `q = realloc(p, 2000)` at 8208: offset 1500 is inside
the claimed preserved prefix (`1500 < min 4080 2000`), yet byte 1500 of
`q` reads 0 while byte 1500 of `p` read 7 before the call. -/
theorem reallocLargeUnderCopy_B_cex :
    (mallocB initB 1030 (some 4096)).1 = some 4112 ∧
    (mallocB initB 1030 (some 4096)).2.1.larges = [⟨4096, 1030, 4096⟩] ∧
    (1500 < min (4096 - 16) 2000) ∧
    (writeByte (applyMapEvent (fun _ => 0)
      (mallocB initB 1030 (some 4096)).2.2) (4112 + 1500) 7) (4112 + 1500)
      = 7 ∧
    (reallocB (mallocB initB 1030 (some 4096)).2.1
      (writeByte (applyMapEvent (fun _ => 0)
        (mallocB initB 1030 (some 4096)).2.2) (4112 + 1500) 7)
      4112 2000 (some 8192)).1 = some 8208 ∧
    (reallocB (mallocB initB 1030 (some 4096)).2.1
      (writeByte (applyMapEvent (fun _ => 0)
        (mallocB initB 1030 (some 4096)).2.2) (4112 + 1500) 7)
      4112 2000 (some 8192)).2.2 (8208 + 1500) = 0 ∧
    ¬ (0 : Nat) = 7 := by
  decide

/-! ## Variant A: per-page free lists (allocator.c first half) -/

/-- A variant A small page: the `page_header_t` of allocator.c lines
13-19 (`sizeof(page_header_t) = 40` on the 64-bit target), with the
intra-page free list modelled as the list of threaded cell addresses. -/
structure PageA where
  base : Nat
  object_size : Nat
  num_objects : Nat
  free_count : Nat
  free_list : List Nat
deriving DecidableEq

/-- Address of cell `j` of a variant A page: the cell area starts at
`page + sizeof(page_header_t)` (allocator.c line 82). -/
def cellAddr (base object_size j : Nat) : Nat := base + 40 + j * object_size

/-- Variant A `create_page` (allocator.c lines 62-93) at mapping base
`base`: `num_objects = (4096 - 40) / object_size` cells, all free, linked
from the last cell down to the first (the loop pushes each cell in front
of the previous ones, so the resulting head is the highest cell). -/
def createPageA (object_size base : Nat) : PageA :=
  let num := (4096 - 40) / object_size
  { base := base
    object_size := object_size
    num_objects := num
    free_count := num
    free_list := ((List.range num).map (cellAddr base object_size)).reverse }

/-- The page-walk and head-unlink of variant A `malloc` (allocator.c
lines 157-177): skip pages with `free_count == 0`, pop the free-list head
of the first page with free cells.  A page with nonzero `free_count` but
an empty free list would make the C code dereference null; the model
returns `none` there, and no reachable state contains such a page
(`free_count` always equals the free-list length). -/
def popFirstFree : List PageA → Option (Nat × List PageA)
  | [] => none
  | pg :: rest =>
    if pg.free_count ≠ 0 then
      match pg.free_list with
      | [] => none
      | a :: tl =>
        some (a, { pg with free_list := tl, free_count := pg.free_count - 1 }
          :: rest)
    else
      match popFirstFree rest with
      | none => none
      | some (a, rest') => some (a, pg :: rest')

/-- Variant A global state: `size_class_pages[10]` (allocator.c line 35).
Variant A maintains no state for large regions (their headers live in the
mapped regions themselves), so the state is exactly the small-page
lists. -/
structure StateA where
  classes : List (List PageA)
deriving DecidableEq

/-- Variant A initial state: all ten class heads null. -/
def initA : StateA := ⟨List.replicate 10 []⟩

/-- The page list of size class `i`. -/
def classGet (st : StateA) (i : Nat) : List PageA := st.classes.getD i []

/-- The small path of variant A `malloc` (allocator.c lines 152-178) for
`1 ≤ size ≤ 1024`: classify, walk the class's pages for free space, else
provision a fresh page via `create_page` (prepending it to the class list,
lines 164-171) and pop its head cell. -/
def mallocSmallA (st : StateA) (size : Nat) (fresh : Option Nat) :
    Option Nat × StateA :=
  let i := (get_size_class size).toNat
  let s := get_object_size i
  match popFirstFree (classGet st i) with
  | some (a, l') => (some a, ⟨st.classes.set i l'⟩)
  | none =>
    match fresh with
    | none => (none, st)
    | some b =>
      let pg := createPageA s b
      match pg.free_list with
      | [] => (none, st)
      | a :: tl =>
        (some a, ⟨st.classes.set i
          ({ pg with free_list := tl, free_count := pg.free_count - 1 }
            :: classGet st i)⟩)

/-- Variant A `malloc` (allocator.c lines 126-179): null on a zero-byte
request before anything else happens; the large path (lines 131-149) maps
`allocSizeA size` bytes, installs the `{alloc_size, 0xDEADBEEF}` header at
the base and returns `base + 16` — it records nothing in the allocator
state; otherwise the small path runs. -/
def mallocA (st : StateA) (size : Nat) (fresh : Option Nat) :
    Option Nat × StateA :=
  if size = 0 then (none, st)
  else if 1024 < size then
    match fresh with
    | none => (none, st)
    | some b => (some (b + 16), st)
  else mallocSmallA st size fresh

/-- The push performed by variant A `free` on the page whose base is the
masked address (allocator.c lines 188-195), guarded by the
`is_small_allocation` header check: the freed cell becomes the new
free-list head and `free_count` is incremented.  Applied pointwise to
every page, it updates exactly the page at `maskPage p` because page
bases are pairwise distinct in every reachable state. -/
def pushCellA (p : Nat) (pg : PageA) : PageA :=
  if pg.base == maskPage p &&
      is_small_allocation pg.object_size pg.num_objects pg.free_count then
    { pg with free_list := p :: pg.free_list, free_count := pg.free_count + 1 }
  else pg

/-- The small branch of variant A `free` (allocator.c lines 182-195) for
a pointer lying in one of the allocator's own pages. -/
def freeSmallA (st : StateA) (p : Nat) : StateA :=
  ⟨st.classes.map (List.map (pushCellA p))⟩

/-- A call step against the variant A small allocator, for replaying
concrete traces. -/
inductive OpA where
  | alloc (n : Nat) (fresh : Option Nat)
  | release (p : Nat)

/-- Replay a list of variant A small-path calls, collecting each `malloc`
result. -/
def runA (st : StateA) : List OpA → StateA × List (Option Nat)
  | [] => (st, [])
  | OpA.alloc n f :: ops =>
    let r := mallocSmallA st n f
    let rest := runA r.2 ops
    (rest.1, r.1 :: rest.2)
  | OpA.release p :: ops =>
    let rest := runA (freeSmallA st p) ops
    (rest.1, none :: rest.2)

/-- A mapping base the OS may return for a new page: page-aligned and not
already one of the allocator's pages (anonymous mappings never overlap
live mappings). -/
def FreshA (st : StateA) (b : Nat) : Prop :=
  b % 4096 = 0 ∧ ∀ i pg, pg ∈ classGet st i → pg.base ≠ b

/-- Reachable states of the variant A small allocator under legal usage,
together with the multiset of live (issued and not yet released)
pointers: the initial all-null state, successful small allocations
(with or without a fresh page from the OS), and releases of live
pointers. -/
inductive ReachA : StateA → List Nat → Prop where
  | init : ReachA initA []
  | alloc {st live n b a st'} : ReachA st live → 1 ≤ n → n ≤ 1024 →
      FreshA st b → mallocSmallA st n (some b) = (some a, st') →
      ReachA st' (a :: live)
  | allocNoMap {st live n a st'} : ReachA st live → 1 ≤ n → n ≤ 1024 →
      mallocSmallA st n none = (some a, st') → ReachA st' (a :: live)
  | release {st live p} : ReachA st live → p ∈ live →
      ReachA (freeSmallA st p) (live.erase p)

/-- Well-formedness of a variant A page of class `i`: the header fields
are those `create_page` establishes and `malloc` / `free` maintain, and
every free-list entry is one of the page's own cells. -/
def PageWF (i : Nat) (pg : PageA) : Prop :=
  pg.object_size = get_object_size i ∧
  pg.base % 4096 = 0 ∧
  pg.num_objects = (4096 - 40) / pg.object_size ∧
  pg.free_count = pg.free_list.length ∧
  pg.free_list.Nodup ∧
  ∀ a ∈ pg.free_list, ∃ j, j < pg.num_objects ∧
    a = cellAddr pg.base pg.object_size j

/-- The inductive invariant of the variant A small allocator: ten
well-formed classes, pairwise distinct page bases, and live pointers that
are cells of existing pages and sit on no free list. -/
def InvA (st : StateA) (live : List Nat) : Prop :=
  st.classes.length = 10 ∧
  (∀ i pg, pg ∈ classGet st i → i < 10 ∧ PageWF i pg) ∧
  (∀ i, ((classGet st i).map PageA.base).Nodup) ∧
  (∀ i j pgi pgj, pgi ∈ classGet st i → pgj ∈ classGet st j →
    pgi.base = pgj.base → i = j) ∧
  (∀ p ∈ live, ∃ i pg, pg ∈ classGet st i ∧
    ∃ j, j < pg.num_objects ∧ p = cellAddr pg.base pg.object_size j) ∧
  (∀ p ∈ live, ∀ i pg, pg ∈ classGet st i → p ∉ pg.free_list) ∧
  live.Nodup

/-! ### List helpers for the class array -/

/-- `getD` after `set` at the same in-range index. -/
theorem getD_set_self {α : Type} (l : List α) (i : Nat) (x d : α)
    (h : i < l.length) : (l.set i x).getD i d = x := by
  induction l generalizing i with
  | nil => simp at h
  | cons a t ih =>
    cases i with
    | zero => rfl
    | succ i =>
      simp only [List.set_cons_succ, List.getD_cons_succ]
      exact ih i (by simpa using h)

/-- `getD` after `set` at a different index. -/
theorem getD_set_ne {α : Type} (l : List α) (i j : Nat) (x d : α)
    (h : i ≠ j) : (l.set i x).getD j d = l.getD j d := by
  induction l generalizing i j with
  | nil => rfl
  | cons a t ih =>
    cases i with
    | zero =>
      cases j with
      | zero => exact absurd rfl h
      | succ j => rfl
    | succ i =>
      cases j with
      | zero => rfl
      | succ j =>
        simp only [List.set_cons_succ, List.getD_cons_succ]
        exact ih i j (by omega)

/-- `getD` over a mapped list, when the map sends the default to itself. -/
theorem getD_map_nil {α : Type} (g : List α → List α) (hg : g [] = [])
    (l : List (List α)) (j : Nat) : (l.map g).getD j [] = g (l.getD j []) := by
  induction l generalizing j with
  | nil => simp [List.getD, hg]
  | cons a t ih =>
    cases j with
    | zero => rfl
    | succ j =>
      simp only [List.map_cons, List.getD_cons_succ]
      exact ih j

/-- The class lists of the initial variant A state are all empty. -/
theorem classGet_initA (i : Nat) : classGet initA i = [] := by
  have : ∀ (n i : Nat), (List.replicate n ([] : List PageA)).getD i [] = [] := by
    intro n
    induction n with
    | zero => intro i; rfl
    | succ n ih =>
      intro i
      cases i with
      | zero => rfl
      | succ i =>
        simp only [List.replicate, List.getD_cons_succ]
        exact ih i
  exact this 10 i

/-- Updating one class leaves the others untouched. -/
theorem classGet_set_ne {st : StateA} {i j : Nat} (l : List PageA)
    (h : i ≠ j) : classGet ⟨st.classes.set i l⟩ j = classGet st j :=
  getD_set_ne st.classes i j l [] h

/-- Updating one in-range class stores the new list there. -/
theorem classGet_set_self {st : StateA} {i : Nat} (l : List PageA)
    (h : i < st.classes.length) : classGet ⟨st.classes.set i l⟩ i = l :=
  getD_set_self st.classes i l [] h

/-- `freeSmallA` acts classwise as `pushCellA` on every page. -/
theorem classGet_freeSmallA (st : StateA) (p : Nat) (j : Nat) :
    classGet (freeSmallA st p) j = (classGet st j).map (pushCellA p) :=
  getD_map_nil (List.map (pushCellA p)) rfl st.classes j

/-! ### Characterisation of the page walk -/

/-- Soundness of `popFirstFree`: a successful pop splits the list at the
first page with free cells and pops that page's head cell. -/
theorem popFirstFree_some {l : List PageA} {a : Nat} {l' : List PageA}
    (h : popFirstFree l = some (a, l')) :
    ∃ pre pg tl suf,
      l = pre ++ pg :: suf ∧
      (∀ q ∈ pre, q.free_count = 0) ∧
      pg.free_count ≠ 0 ∧
      pg.free_list = a :: tl ∧
      l' = pre ++
        { pg with free_list := tl, free_count := pg.free_count - 1 } :: suf := by
  induction l generalizing l' with
  | nil => simp [popFirstFree] at h
  | cons pg rest ih =>
    by_cases hc : pg.free_count ≠ 0
    · rw [popFirstFree, if_pos hc] at h
      cases hfl : pg.free_list with
      | nil =>
        rw [hfl] at h
        simp at h
      | cons a0 tl0 =>
        rw [hfl] at h
        simp only [Option.some.injEq, Prod.mk.injEq] at h
        obtain ⟨ha, hl'⟩ := h
        exact ⟨[], pg, tl0, rest, by simp, by simp, hc, by rw [hfl, ha],
          by rw [← hl']; rfl⟩
    · push_neg at hc
      rw [popFirstFree, if_neg (by simp [hc])] at h
      cases hrec : popFirstFree rest with
      | none =>
        rw [hrec] at h
        simp at h
      | some pr =>
        obtain ⟨a1, rest'⟩ := pr
        rw [hrec] at h
        simp only [Option.some.injEq, Prod.mk.injEq] at h
        obtain ⟨ha, hl'⟩ := h
        subst ha
        obtain ⟨pre, pg1, tl, suf, hL, hpre, hc1, hfl, hrest'⟩ := ih hrec
        refine ⟨pg :: pre, pg1, tl, suf, by rw [hL]; rfl, ?_, hc1, hfl, ?_⟩
        · intro q hq
          rcases List.mem_cons.mp hq with hq | hq
          · rw [hq]; exact hc
          · exact hpre q hq
        · rw [← hl', hrest']; rfl

/-- Completeness of `popFirstFree`: on a list whose prefix has no free
cells and whose next page has head cell `a`, the walk pops exactly `a`. -/
theorem popFirstFree_decomp {pre : List PageA} {pg : PageA}
    {suf : List PageA} {a : Nat} {tl : List Nat}
    (hpre : ∀ q ∈ pre, q.free_count = 0)
    (hc : pg.free_count ≠ 0) (hfl : pg.free_list = a :: tl) :
    popFirstFree (pre ++ pg :: suf) =
      some (a, pre ++
        { pg with free_list := tl, free_count := pg.free_count - 1 } :: suf) := by
  induction pre with
  | nil =>
    rw [List.nil_append, popFirstFree, if_pos hc, hfl]
    rfl
  | cons q pre' ih =>
    have hq : q.free_count = 0 := hpre q (by simp)
    rw [List.cons_append, popFirstFree, if_neg (by simp [hq]),
      ih (fun r hr => hpre r (by simp [hr]))]
    rfl

/-! ### Cell geometry and page well-formedness -/

/-- Every valid class index has a positive block size. -/
theorem get_object_size_pos (i : Nat) : 0 < get_object_size i := by
  unfold get_object_size
  split_ifs <;> positivity

/-- The block sizes of the ten classes, as `is_small_allocation` checks
them: between 2 and 1024 and a power of two. -/
theorem object_size_pow_facts : ∀ i, i < 10 →
    2 ≤ get_object_size i ∧ get_object_size i ≤ 1024 ∧
    (get_object_size i = 2 ∨ get_object_size i = 4 ∨
      (8 ≤ get_object_size i ∧ get_object_size i ≤ 1024 ∧
        get_object_size i &&& (get_object_size i - 1) = 0)) := by
  decide

/-- A cell of a page fits inside the page body. -/
theorem cellAddr_bound {s num j : Nat} (hs : 0 < s)
    (hnum : num = (4096 - 40) / s) (hj : j < num) :
    40 + j * s + s ≤ 4096 := by
  have h1 : (j + 1) * s ≤ num * s :=
    Nat.mul_le_mul_right s (Nat.succ_le_of_lt hj)
  have h2 : num * s ≤ 4096 - 40 := by
    rw [hnum]
    exact Nat.div_mul_le_self (4096 - 40) s
  have h3 : 40 + j * s + s = 40 + (j + 1) * s := by ring
  omega

/-- Masking a cell address recovers its page base, and the cell lies
within the page. -/
theorem maskPage_cell {base s num j : Nat} (hb : base % 4096 = 0)
    (hs : 0 < s) (hnum : num = (4096 - 40) / s) (hj : j < num) :
    maskPage (cellAddr base s j) = base ∧
    base + 40 ≤ cellAddr base s j ∧
    cellAddr base s j + s ≤ base + 4096 := by
  have hr := cellAddr_bound hs hnum hj
  unfold maskPage cellAddr
  omega

/-- `create_page` produces a well-formed page of its class. -/
theorem createPageA_WF {i b : Nat} (hi : i < 10) (hb : b % 4096 = 0) :
    PageWF i (createPageA (get_object_size i) b) := by
  have hs : 0 < get_object_size i := get_object_size_pos i
  unfold createPageA PageWF
  refine ⟨rfl, hb, rfl, by simp, ?_, ?_⟩
  · simp only [List.nodup_reverse]
    refine List.Nodup.map ?_ (List.nodup_range _)
    intro x y hxy
    unfold cellAddr at hxy
    have hmul : x * get_object_size i = y * get_object_size i := by omega
    exact Nat.eq_of_mul_eq_mul_right hs hmul
  · intro a ha
    simp only [List.mem_reverse, List.mem_map, List.mem_range] at ha
    obtain ⟨j, hj, rfl⟩ := ha
    exact ⟨j, hj, rfl⟩

/-- A well-formed page's free list never exceeds its capacity. -/
theorem free_list_length_le {pg : PageA} {i : Nat} (h : PageWF i pg) :
    pg.free_list.length ≤ pg.num_objects := by
  obtain ⟨hos, hb, hnum, hcnt, hnd, hcon⟩ := h
  have hsub : pg.free_list ⊆
      (List.range pg.num_objects).map
        (cellAddr pg.base pg.object_size) := by
    intro a ha
    obtain ⟨j, hj, rfl⟩ := hcon a ha
    exact List.mem_map.mpr ⟨j, List.mem_range.mpr hj, rfl⟩
  have := (hnd.subperm hsub).length_le
  simpa using this

/-- A well-formed page passes the `is_small_allocation` header check. -/
theorem is_small_of_WF {i : Nat} {pg : PageA} (hi : i < 10)
    (h : PageWF i pg) :
    is_small_allocation pg.object_size pg.num_objects pg.free_count = true := by
  have hlen := free_list_length_le h
  obtain ⟨hos, hb, hnum, hcnt, hnd, hcon⟩ := h
  obtain ⟨h2, h1024, hpow⟩ := object_size_pow_facts i hi
  have hs : 0 < get_object_size i := get_object_size_pos i
  unfold is_small_allocation
  simp only [decide_eq_true_eq]
  refine ⟨by omega, by omega, ?_, ?_, by omega, ?_⟩
  · rw [hnum]
    exact Nat.div_pos (by omega) (by omega)
  · rw [hnum]
    exact le_trans (Nat.div_le_self _ _) (by omega)
  · rw [hos]
    exact hpow

/-! ### The inductive invariant -/

/-- Two pages with the same base are the same page of the same class. -/
theorem page_unique {st : StateA} {live : List Nat} (hInv : InvA st live)
    {i j : Nat} {pgi pgj : PageA}
    (hi : pgi ∈ classGet st i) (hj : pgj ∈ classGet st j)
    (hbase : pgi.base = pgj.base) : i = j ∧ pgi = pgj := by
  obtain ⟨-, -, hbases, hcross, -, -, -⟩ := hInv
  have hij := hcross i j pgi pgj hi hj hbase
  subst hij
  exact ⟨rfl, List.inj_on_of_nodup_map (hbases i) hi hj hbase⟩

/-- A cell of a well-formed page masks back to the page base and lies in
the page body. -/
theorem cell_mask {i : Nat} {pg : PageA} (hWF : PageWF i pg) {p j : Nat}
    (hj : j < pg.num_objects)
    (hp : p = cellAddr pg.base pg.object_size j) :
    maskPage p = pg.base ∧ pg.base + 40 ≤ p ∧
    p + pg.object_size ≤ pg.base + 4096 := by
  obtain ⟨hos, hb, hnum, -, -, -⟩ := hWF
  have hs : 0 < pg.object_size := by
    rw [hos]
    exact get_object_size_pos i
  subst hp
  exact maskPage_cell hb hs hnum hj

/-- The initial variant A state satisfies the invariant. -/
theorem InvA_init : InvA initA [] := by
  refine ⟨by decide, ?_, ?_, ?_, by simp, by simp, List.nodup_nil⟩
  · intro i pg h
    rw [classGet_initA] at h
    simp at h
  · intro i
    rw [classGet_initA]
    exact List.nodup_nil
  · intro i j pgi pgj hi
    rw [classGet_initA] at hi
    simp at hi

/-- In a list whose mapped images are distinct, the middle element's image
differs from every image in the flanks. -/
theorem nodup_mid {α β : Type} (f : α → β) (l1 l2 : List α) (x : α)
    (h : ((l1 ++ x :: l2).map f).Nodup) :
    (∀ y ∈ l1, f y ≠ f x) ∧ ∀ y ∈ l2, f y ≠ f x := by
  rw [List.map_append, List.map_cons, List.nodup_append] at h
  obtain ⟨h1, h2, hdisj⟩ := h
  constructor
  · intro y hy hcon
    exact hdisj (List.mem_map_of_mem f hy) (by simp [hcon])
  · intro y hy hcon
    rw [List.nodup_cons] at h2
    exact h2.1 (hcon ▸ List.mem_map_of_mem f hy)


/-- The base of a freshly created page is its mapping base. -/
theorem createPageA_base (s b : Nat) : (createPageA s b).base = b := rfl

/-- The block size of a freshly created page. -/
theorem createPageA_os (s b : Nat) : (createPageA s b).object_size = s := rfl

/-- A fresh page's free list enumerates all of its cells. -/
theorem createPageA_len (s b : Nat) :
    (createPageA s b).free_list.length = (createPageA s b).num_objects := by
  simp [createPageA]

/-- Preservation of the invariant by a successful small allocation, along
with the shape of the returned cell: it is a cell of a page of the
request's class. -/
theorem mallocSmallA_inv {st : StateA} {live : List Nat} {n : Nat}
    {fb : Option Nat} {a : Nat} {st' : StateA}
    (hInv : InvA st live) (hn1 : 1 ≤ n) (hn2 : n ≤ 1024)
    (hfb : ∀ b, fb = some b → FreshA st b)
    (heq : mallocSmallA st n fb = (some a, st')) :
    InvA st' (a :: live) ∧
    ∃ base j, base % 4096 = 0 ∧
      j < (4096 - 40) / get_object_size (get_size_class n).toNat ∧
      a = cellAddr base (get_object_size (get_size_class n).toNat) j := by
  have hi9 : (get_size_class n).toNat ≤ 9 := (gsc_smallest n hn2 hn1).2.1
  obtain ⟨hlen, hWF, hbases, hcross, hlive, hdisj, hnd⟩ := hInv
  have hInvFull : InvA st live :=
    ⟨hlen, hWF, hbases, hcross, hlive, hdisj, hnd⟩
  have hilen : (get_size_class n).toNat < st.classes.length := by omega
  simp only [mallocSmallA] at heq
  cases hpop : popFirstFree (classGet st (get_size_class n).toNat) with
  | some pr =>
    obtain ⟨a0, l'⟩ := pr
    rw [hpop] at heq
    simp only [Option.some.injEq, Prod.mk.injEq] at heq
    obtain ⟨ha0, hst'⟩ := heq
    obtain ⟨pre, pg, tl, suf, hLi, hpre0, hcnt0, hfl, hl'⟩ :=
      popFirstFree_some hpop
    subst hl'
    rw [ha0] at hfl
    have hpgmem : pg ∈ classGet st (get_size_class n).toNat := by
      rw [hLi]
      exact List.mem_append_right _ (List.mem_cons_self _ _)
    obtain ⟨hi10, hpgWF⟩ := hWF _ pg hpgmem
    obtain ⟨hos, hb, hnum, hcntlen, hndf, hconf⟩ := hpgWF
    have hpgWFfull : PageWF (get_size_class n).toNat pg :=
      ⟨hos, hb, hnum, hcntlen, hndf, hconf⟩
    have hamem : a ∈ pg.free_list := by
      rw [hfl]
      exact List.mem_cons_self _ _
    obtain ⟨ja, hja, haeq⟩ := hconf a hamem
    have hndatl : (a :: tl).Nodup := by
      rw [← hfl]
      exact hndf
    have hcg : ∀ jj, classGet st' jj =
        if jj = (get_size_class n).toNat then
          pre ++ { pg with free_list := tl, free_count := pg.free_count - 1 } :: suf
        else classGet st jj := by
      intro jj
      rw [← hst']
      by_cases hjj : jj = (get_size_class n).toNat
      · subst hjj
        rw [if_pos rfl]
        exact classGet_set_self _ hilen
      · rw [if_neg hjj]
        exact classGet_set_ne _ (fun hcon => hjj hcon.symm)
    have hpg'WF : PageWF (get_size_class n).toNat
        { pg with free_list := tl, free_count := pg.free_count - 1 } := by
      refine ⟨hos, hb, hnum, ?_, ?_, ?_⟩
      · have h1 : pg.free_count = (a :: tl).length := by
          rw [← hfl]
          exact hcntlen
        simp only [List.length_cons] at h1
        simp only
        omega
      · exact (List.nodup_cons.mp hndatl).2
      · intro x hx
        exact hconf x (by rw [hfl]; exact List.mem_cons_of_mem _ hx)
    have hmem_new : ∀ qg,
        qg ∈ pre ++ { pg with free_list := tl, free_count := pg.free_count - 1 } :: suf →
        qg = { pg with free_list := tl, free_count := pg.free_count - 1 } ∨
        (qg ∈ pre ∨ qg ∈ suf) := by
      intro qg hq
      rcases List.mem_append.mp hq with h | h
      · exact Or.inr (Or.inl h)
      · rcases List.mem_cons.mp h with h | h
        · exact Or.inl h
        · exact Or.inr (Or.inr h)
    have hold_of_flank : ∀ qg, qg ∈ pre ∨ qg ∈ suf →
        qg ∈ classGet st (get_size_class n).toNat := by
      intro qg hq
      rw [hLi]
      rcases hq with h | h
      · exact List.mem_append_left _ h
      · exact List.mem_append_right _ (List.mem_cons_of_mem _ h)
    have hflankbase := nodup_mid PageA.base pre suf pg
      (by rw [← hLi]; exact hbases _)
    refine ⟨⟨?_, ?_, ?_, ?_, ?_, ?_, ?_⟩, ?_⟩
    · rw [← hst']
      simp only [List.length_set]
      exact hlen
    · intro jj qg hq
      rw [hcg jj] at hq
      by_cases hjj : jj = (get_size_class n).toNat
      · subst hjj
        rw [if_pos rfl] at hq
        rcases hmem_new qg hq with hq | hq
        · subst hq
          exact ⟨by omega, hpg'WF⟩
        · exact hWF _ qg (hold_of_flank qg hq)
      · rw [if_neg hjj] at hq
        exact hWF jj qg hq
    · intro jj
      rw [hcg jj]
      by_cases hjj : jj = (get_size_class n).toNat
      · rw [if_pos hjj]
        have hmapeq :
            (pre ++ { pg with free_list := tl, free_count := pg.free_count - 1 } :: suf).map PageA.base =
            (classGet st (get_size_class n).toNat).map PageA.base := by
          rw [hLi]
          simp
        rw [hmapeq]
        exact hbases _
      · rw [if_neg hjj]
        exact hbases jj
    · intro jj kk qg rg hq hr hbr
      rw [hcg jj] at hq
      rw [hcg kk] at hr
      have hq0 : ∃ qg0, qg0 ∈ classGet st jj ∧ qg0.base = qg.base := by
        by_cases hjj : jj = (get_size_class n).toNat
        · subst hjj
          rw [if_pos rfl] at hq
          rcases hmem_new qg hq with hq | hq
          · exact ⟨pg, hpgmem, by rw [hq]⟩
          · exact ⟨qg, hold_of_flank qg hq, rfl⟩
        · rw [if_neg hjj] at hq
          exact ⟨qg, hq, rfl⟩
      have hr0 : ∃ rg0, rg0 ∈ classGet st kk ∧ rg0.base = rg.base := by
        by_cases hkk : kk = (get_size_class n).toNat
        · subst hkk
          rw [if_pos rfl] at hr
          rcases hmem_new rg hr with hr | hr
          · exact ⟨pg, hpgmem, by rw [hr]⟩
          · exact ⟨rg, hold_of_flank rg hr, rfl⟩
        · rw [if_neg hkk] at hr
          exact ⟨rg, hr, rfl⟩
      obtain ⟨qg0, hq0m, hq0b⟩ := hq0
      obtain ⟨rg0, hr0m, hr0b⟩ := hr0
      exact hcross jj kk qg0 rg0 hq0m hr0m (by rw [hq0b, hr0b, hbr])
    · intro p hp
      rcases List.mem_cons.mp hp with hp | hp
      · subst hp
        refine ⟨(get_size_class n).toNat,
          { pg with free_list := tl, free_count := pg.free_count - 1 }, ?_, ja, hja, haeq⟩
        rw [hcg _, if_pos rfl]
        exact List.mem_append_right _ (List.mem_cons_self _ _)
      · obtain ⟨jj, qg0, hq0, jc, hjc, hpc⟩ := hlive p hp
        by_cases hjj : jj = (get_size_class n).toNat
        · subst hjj
          rw [hLi] at hq0
          rcases List.mem_append.mp hq0 with h | h
          · have hmm : qg0 ∈ classGet st' (get_size_class n).toNat := by
              rw [hcg _, if_pos rfl]
              exact List.mem_append_left _ h
            exact ⟨(get_size_class n).toNat, qg0, hmm, jc, hjc, hpc⟩
          · rcases List.mem_cons.mp h with h | h
            · subst h
              have hmm : { qg0 with free_list := tl, free_count := qg0.free_count - 1 } ∈ classGet st' (get_size_class n).toNat := by
                rw [hcg _, if_pos rfl]
                exact List.mem_append_right _ (List.mem_cons_self _ _)
              exact ⟨(get_size_class n).toNat, _, hmm, jc, hjc, hpc⟩
            · have hmm : qg0 ∈ classGet st' (get_size_class n).toNat := by
                rw [hcg _, if_pos rfl]
                exact List.mem_append_right _ (List.mem_cons_of_mem _ h)
              exact ⟨(get_size_class n).toNat, qg0, hmm, jc, hjc, hpc⟩
        · have hmm : qg0 ∈ classGet st' jj := by
            rw [hcg jj, if_neg hjj]
            exact hq0
          exact ⟨jj, qg0, hmm, jc, hjc, hpc⟩
    · intro p hp jj qg hq hmem
      rcases List.mem_cons.mp hp with hp | hp
      · subst hp
        rw [hcg jj] at hq
        by_cases hjj : jj = (get_size_class n).toNat
        · subst hjj
          rw [if_pos rfl] at hq
          rcases hmem_new qg hq with hq | hq
          · subst hq
            exact (List.nodup_cons.mp hndatl).1 hmem
          · have hqold := hold_of_flank qg hq
            obtain ⟨-, hqWF⟩ := hWF _ qg hqold
            obtain ⟨jb, hjb, haeq0⟩ := hqWF.2.2.2.2.2 p hmem
            have hm1 := (cell_mask hqWF hjb haeq0).1
            have hm2 := (cell_mask hpgWFfull hja haeq).1
            have hbb : qg.base = pg.base := by rw [← hm1, ← hm2]
            rcases hq with hq | hq
            · exact hflankbase.1 qg hq hbb
            · exact hflankbase.2 qg hq hbb
        · rw [if_neg hjj] at hq
          obtain ⟨-, hqWF⟩ := hWF jj qg hq
          obtain ⟨jb, hjb, haeq0⟩ := hqWF.2.2.2.2.2 p hmem
          have hm1 := (cell_mask hqWF hjb haeq0).1
          have hm2 := (cell_mask hpgWFfull hja haeq).1
          have hbb : qg.base = pg.base := by rw [← hm1, ← hm2]
          exact hjj (page_unique hInvFull hq hpgmem hbb).1
      · rw [hcg jj] at hq
        by_cases hjj : jj = (get_size_class n).toNat
        · subst hjj
          rw [if_pos rfl] at hq
          rcases hmem_new qg hq with hq | hq
          · subst hq
            have hmem2 : p ∈ pg.free_list := by
              rw [hfl]
              exact List.mem_cons_of_mem _ hmem
            exact hdisj p hp _ pg hpgmem hmem2
          · exact hdisj p hp _ qg (hold_of_flank qg hq) hmem
        · rw [if_neg hjj] at hq
          exact hdisj p hp jj qg hq hmem
    · rw [List.nodup_cons]
      exact ⟨fun hcon => hdisj a hcon _ pg hpgmem hamem, hnd⟩
    · refine ⟨pg.base, ja, hb, ?_, ?_⟩
      · rw [← hos, ← hnum]
        exact hja
      · rw [← hos]
        exact haeq
  | none =>
    rw [hpop] at heq
    dsimp only at heq
    cases fb with
    | none => simp at heq
    | some b =>
      dsimp only at heq
      obtain ⟨hb4096, hbases_ne⟩ := hfb b rfl
      have hcpWF := createPageA_WF
        (show (get_size_class n).toNat < 10 by omega) hb4096
      obtain ⟨hos, hbm, hnum, hcntlen, hndf, hconf⟩ := hcpWF
      have hcpWFfull : PageWF (get_size_class n).toNat
          (createPageA (get_object_size (get_size_class n).toNat) b) :=
        ⟨hos, hbm, hnum, hcntlen, hndf, hconf⟩
      have hs : 0 < get_object_size (get_size_class n).toNat :=
        get_object_size_pos _
      have hs1024 : get_object_size (get_size_class n).toNat ≤ 1024 :=
        (object_size_pow_facts _ (by omega)).2.1
      have hnumpos :
          0 < (createPageA (get_object_size (get_size_class n).toNat) b).num_objects := by
        show 0 < (4096 - 40) / get_object_size (get_size_class n).toNat
        exact Nat.div_pos (by omega) (by omega)
      cases hfl : (createPageA (get_object_size (get_size_class n).toNat) b).free_list with
      | nil =>
        exfalso
        have hlenfl := createPageA_len (get_object_size (get_size_class n).toNat) b
        rw [hfl] at hlenfl
        simp at hlenfl
        omega
      | cons a0 tl =>
        rw [hfl] at heq
        simp only [Option.some.injEq, Prod.mk.injEq] at heq
        obtain ⟨ha0, hst'⟩ := heq
        rw [ha0] at hfl
        have hamem : a ∈
            (createPageA (get_object_size (get_size_class n).toNat) b).free_list := by
          rw [hfl]
          exact List.mem_cons_self _ _
        obtain ⟨ja, hja, haeq⟩ := hconf a hamem
        have hndatl : (a :: tl).Nodup := by
          rw [← hfl]
          exact hndf
        have hcg : ∀ jj, classGet st' jj =
            if jj = (get_size_class n).toNat then
              { createPageA (get_object_size (get_size_class n).toNat) b with free_list := tl, free_count := (createPageA (get_object_size (get_size_class n).toNat) b).free_count - 1 } :: classGet st (get_size_class n).toNat
            else classGet st jj := by
          intro jj
          rw [← hst']
          by_cases hjj : jj = (get_size_class n).toNat
          · subst hjj
            rw [if_pos rfl]
            exact classGet_set_self _ hilen
          · rw [if_neg hjj]
            exact classGet_set_ne _ (fun hcon => hjj hcon.symm)
        have hpg'WF : PageWF (get_size_class n).toNat
            { createPageA (get_object_size (get_size_class n).toNat) b with free_list := tl, free_count := (createPageA (get_object_size (get_size_class n).toNat) b).free_count - 1 } := by
          refine ⟨hos, hbm, hnum, ?_, ?_, ?_⟩
          · have h1 : (createPageA (get_object_size (get_size_class n).toNat) b).free_count = (a :: tl).length := by
              rw [← hfl]
              exact hcntlen
            simp only [List.length_cons] at h1
            simp only
            omega
          · exact (List.nodup_cons.mp hndatl).2
          · intro x hx
            exact hconf x (by rw [hfl]; exact List.mem_cons_of_mem _ hx)
        have hmaska : maskPage a = b := (cell_mask hcpWFfull hja haeq).1
        have hlive_mask : ∀ q, q ∈ live → maskPage q ≠ b := by
          intro q hq0
          obtain ⟨jj0, qg0, hq0m, jc, hjc, hpc⟩ := hlive q hq0
          obtain ⟨-, hq0WF⟩ := hWF jj0 qg0 hq0m
          have hmq := (cell_mask hq0WF hjc hpc).1
          rw [hmq]
          exact hbases_ne jj0 qg0 hq0m
        refine ⟨⟨?_, ?_, ?_, ?_, ?_, ?_, ?_⟩, ?_⟩
        · rw [← hst']
          simp only [List.length_set]
          exact hlen
        · intro jj qg hq
          rw [hcg jj] at hq
          by_cases hjj : jj = (get_size_class n).toNat
          · subst hjj
            rw [if_pos rfl] at hq
            rcases List.mem_cons.mp hq with hq | hq
            · subst hq
              exact ⟨by omega, hpg'WF⟩
            · exact hWF _ qg hq
          · rw [if_neg hjj] at hq
            exact hWF jj qg hq
        · intro jj
          rw [hcg jj]
          by_cases hjj : jj = (get_size_class n).toNat
          · rw [if_pos hjj]
            rw [List.map_cons, List.nodup_cons]
            constructor
            · intro hcon
              obtain ⟨qg, hqg, hqb⟩ := List.mem_map.mp hcon
              exact hbases_ne _ qg (hjj ▸ hqg) hqb
            · exact hbases _
          · rw [if_neg hjj]
            exact hbases jj
        · intro jj kk qg rg hq hr hbr
          rw [hcg jj] at hq
          rw [hcg kk] at hr
          by_cases hjj : jj = (get_size_class n).toNat <;>
            by_cases hkk : kk = (get_size_class n).toNat
          · rw [hjj, hkk]
          · subst hjj
            rw [if_pos rfl] at hq
            rw [if_neg hkk] at hr
            rcases List.mem_cons.mp hq with hq | hq
            · exfalso
              have hrb : rg.base = b := by
                rw [← hbr, hq]
                rfl
              exact hbases_ne kk rg hr hrb
            · exact hcross _ kk qg rg hq hr hbr
          · subst hkk
            rw [if_neg hjj] at hq
            rw [if_pos rfl] at hr
            rcases List.mem_cons.mp hr with hr | hr
            · exfalso
              have hqb : qg.base = b := by
                rw [hbr, hr]
                rfl
              exact hbases_ne jj qg hq hqb
            · exact hcross jj _ qg rg hq hr hbr
          · rw [if_neg hjj] at hq
            rw [if_neg hkk] at hr
            exact hcross jj kk qg rg hq hr hbr
        · intro p hp
          rcases List.mem_cons.mp hp with hp | hp
          · subst hp
            refine ⟨(get_size_class n).toNat, { createPageA (get_object_size (get_size_class n).toNat) b with free_list := tl, free_count := (createPageA (get_object_size (get_size_class n).toNat) b).free_count - 1 }, ?_, ja, hja, haeq⟩
            rw [hcg _, if_pos rfl]
            exact List.mem_cons_self _ _
          · obtain ⟨jj, qg0, hq0, jc, hjc, hpc⟩ := hlive p hp
            have hmm : qg0 ∈ classGet st' jj := by
              rw [hcg jj]
              by_cases hjj : jj = (get_size_class n).toNat
              · subst hjj
                rw [if_pos rfl]
                exact List.mem_cons_of_mem _ hq0
              · rw [if_neg hjj]
                exact hq0
            exact ⟨jj, qg0, hmm, jc, hjc, hpc⟩
        · intro p hp jj qg hq hmem
          rw [hcg jj] at hq
          rcases List.mem_cons.mp hp with hp | hp
          · subst hp
            by_cases hjj : jj = (get_size_class n).toNat
            · subst hjj
              rw [if_pos rfl] at hq
              rcases List.mem_cons.mp hq with hq | hq
              · subst hq
                exact (List.nodup_cons.mp hndatl).1 hmem
              · obtain ⟨-, hqWF⟩ := hWF _ qg hq
                obtain ⟨jb, hjb, haeq0⟩ := hqWF.2.2.2.2.2 p hmem
                have hm1 := (cell_mask hqWF hjb haeq0).1
                rw [hmaska] at hm1
                exact hbases_ne _ qg hq hm1.symm
            · rw [if_neg hjj] at hq
              obtain ⟨-, hqWF⟩ := hWF jj qg hq
              obtain ⟨jb, hjb, haeq0⟩ := hqWF.2.2.2.2.2 p hmem
              have hm1 := (cell_mask hqWF hjb haeq0).1
              rw [hmaska] at hm1
              exact hbases_ne jj qg hq hm1.symm
          · by_cases hjj : jj = (get_size_class n).toNat
            · subst hjj
              rw [if_pos rfl] at hq
              rcases List.mem_cons.mp hq with hq | hq
              · subst hq
                have hmem2 : p ∈
                    (createPageA (get_object_size (get_size_class n).toNat) b).free_list := by
                  rw [hfl]
                  exact List.mem_cons_of_mem _ hmem
                obtain ⟨jb, hjb, haeq0⟩ := hconf p hmem2
                have hmb := (cell_mask hcpWFfull hjb haeq0).1
                exact hlive_mask p hp hmb
              · exact hdisj p hp _ qg hq hmem
            · rw [if_neg hjj] at hq
              exact hdisj p hp jj qg hq hmem
        · rw [List.nodup_cons]
          exact ⟨fun hcon => hlive_mask a hcon hmaska, hnd⟩
        · exact ⟨b, ja, hb4096, hja, haeq⟩

/-- `pushCellA` never changes a page's identity fields. -/
theorem pushCellA_fields (p : Nat) (qg : PageA) :
    (pushCellA p qg).base = qg.base ∧
    (pushCellA p qg).object_size = qg.object_size ∧
    (pushCellA p qg).num_objects = qg.num_objects := by
  unfold pushCellA
  split <;> exact ⟨rfl, rfl, rfl⟩

/-- Preservation of the invariant by a release of a live pointer, along
with the effect of the release: the cell is pushed onto the free list of
exactly the page it was carved from (found through `maskPage`), and every
other page is untouched. -/
theorem freeSmallA_inv {st : StateA} {live : List Nat} {p : Nat}
    (hInv : InvA st live) (hp : p ∈ live) :
    InvA (freeSmallA st p) (live.erase p) ∧
    ∃ i0 pgp, pgp ∈ classGet st i0 ∧
      (∃ j, j < pgp.num_objects ∧ p = cellAddr pgp.base pgp.object_size j) ∧
      maskPage p = pgp.base ∧
      pushCellA p pgp = { pgp with free_list := p :: pgp.free_list, free_count := pgp.free_count + 1 } ∧
      ∀ jj qg, qg ∈ classGet st jj → qg.base ≠ pgp.base → pushCellA p qg = qg := by
  obtain ⟨hlen, hWF, hbases, hcross, hlive, hdisj, hnd⟩ := hInv
  have hInvFull : InvA st live :=
    ⟨hlen, hWF, hbases, hcross, hlive, hdisj, hnd⟩
  obtain ⟨i0, pgp, hpm, jc, hjc, hpc⟩ := hlive p hp
  obtain ⟨hi10, hpWF⟩ := hWF i0 pgp hpm
  have hmask : maskPage p = pgp.base := (cell_mask hpWF hjc hpc).1
  have hpnotin : p ∉ pgp.free_list := hdisj p hp i0 pgp hpm
  have hpush : pushCellA p pgp =
      { pgp with free_list := p :: pgp.free_list, free_count := pgp.free_count + 1 } := by
    have hc : (pgp.base == maskPage p &&
        is_small_allocation pgp.object_size pgp.num_objects pgp.free_count) = true := by
      rw [Bool.and_eq_true, beq_iff_eq]
      exact ⟨hmask.symm, is_small_of_WF hi10 hpWF⟩
    unfold pushCellA
    rw [if_pos hc]
  have hnopush : ∀ jj qg, qg ∈ classGet st jj → qg.base ≠ pgp.base →
      pushCellA p qg = qg := by
    intro jj qg hq hne
    unfold pushCellA
    rw [if_neg]
    intro hc
    rw [Bool.and_eq_true, beq_iff_eq] at hc
    exact hne (by rw [hc.1, hmask])
  have hsame : ∀ jj qg, qg ∈ classGet st jj → qg.base = pgp.base →
      jj = i0 ∧ qg = pgp := fun jj qg hq hb => page_unique hInvFull hq hpm hb
  have hmemerase : ∀ q, q ∈ live.erase p → q ∈ live ∧ q ≠ p := by
    intro q hq
    have := (List.Nodup.mem_erase_iff hnd).mp hq
    exact ⟨this.2, this.1⟩
  refine ⟨⟨?_, ?_, ?_, ?_, ?_, ?_, ?_⟩,
    i0, pgp, hpm, ⟨jc, hjc, hpc⟩, hmask, hpush, hnopush⟩
  · simp only [freeSmallA, List.length_map]
    exact hlen
  · intro jj qg' hq'
    rw [classGet_freeSmallA] at hq'
    obtain ⟨qg, hq, hqe⟩ := List.mem_map.mp hq'
    by_cases hb : qg.base = pgp.base
    · obtain ⟨hjji, hqgp⟩ := hsame jj qg hq hb
      subst hjji
      subst hqgp
      rw [hpush] at hqe
      subst hqe
      obtain ⟨hos, hbm, hnum, hcnt, hndf, hcon⟩ := hpWF
      refine ⟨hi10, hos, hbm, hnum, ?_, ?_, ?_⟩
      · simp only [List.length_cons]
        omega
      · exact List.nodup_cons.mpr ⟨hpnotin, hndf⟩
      · intro x hx
        rcases List.mem_cons.mp hx with hx | hx
        · subst hx
          exact ⟨jc, hjc, hpc⟩
        · exact hcon x hx
    · rw [hnopush jj qg hq hb] at hqe
      subst hqe
      exact hWF jj qg hq
  · intro jj
    rw [classGet_freeSmallA]
    have hmb : ((classGet st jj).map (pushCellA p)).map PageA.base =
        (classGet st jj).map PageA.base := by
      rw [List.map_map]
      exact List.map_congr_left (fun qg _ => (pushCellA_fields p qg).1)
    rw [hmb]
    exact hbases jj
  · intro jj kk qg' rg' hq' hr' hbr
    rw [classGet_freeSmallA] at hq' hr'
    obtain ⟨qg, hq, hqe⟩ := List.mem_map.mp hq'
    obtain ⟨rg, hr, hre⟩ := List.mem_map.mp hr'
    have h1 : qg.base = qg'.base := by rw [← hqe]; exact ((pushCellA_fields p qg).1).symm
    have h2 : rg.base = rg'.base := by rw [← hre]; exact ((pushCellA_fields p rg).1).symm
    exact hcross jj kk qg rg hq hr (by rw [h1, h2, hbr])
  · intro q hq
    obtain ⟨hql, -⟩ := hmemerase q hq
    obtain ⟨jj, qg, hqm, jq, hjq, hqc⟩ := hlive q hql
    refine ⟨jj, pushCellA p qg, ?_, jq, ?_, ?_⟩
    · rw [classGet_freeSmallA]
      exact List.mem_map_of_mem _ hqm
    · rw [(pushCellA_fields p qg).2.2]
      exact hjq
    · rw [(pushCellA_fields p qg).1, (pushCellA_fields p qg).2.1]
      exact hqc
  · intro q hq jj qg' hq' hmem
    obtain ⟨hql, hqnep⟩ := hmemerase q hq
    rw [classGet_freeSmallA] at hq'
    obtain ⟨qg, hqm, hqe⟩ := List.mem_map.mp hq'
    by_cases hb : qg.base = pgp.base
    · obtain ⟨hjji, hqgp⟩ := hsame jj qg hqm hb
      rw [hqgp, hpush] at hqe
      subst hqe
      simp only at hmem
      rcases List.mem_cons.mp hmem with hx | hx
      · exact hqnep hx
      · exact hdisj q hql _ pgp hpm hx
    · rw [hnopush jj qg hqm hb] at hqe
      subst hqe
      exact hdisj q hql jj qg hqm hmem
  · exact List.Nodup.erase p hnd

/-- Every reachable state of the variant A small allocator satisfies the
invariant. -/
theorem ReachA_inv {st : StateA} {live : List Nat} (h : ReachA st live) :
    InvA st live := by
  induction h with
  | init => exact InvA_init
  | alloc hr hn1 hn2 hfr heq ih =>
    exact (mallocSmallA_inv ih hn1 hn2 (fun b' hb' => by cases hb'; exact hfr) heq).1
  | allocNoMap hr hn1 hn2 heq ih =>
    exact (mallocSmallA_inv ih hn1 hn2 (fun b' hb' => Option.noConfusion hb') heq).1
  | release hr hp ih =>
    exact (freeSmallA_inv ih hp).1

/-! ## Claim C1: free lists stay within their page -/

/-- Claim C1 (amended, for the per-page variant A): in every reachable
state, every page's free list holds only addresses of cells lying inside
that page, and releasing a live pointer threads it onto the free list of
exactly the page it was carved from: after the release, `p` sits on a
page's free list precisely when `p` lies inside that page.  (The cited
variant B keeps one global list per class instead and threads cells of
different pages together: see the counterexample.) -/
theorem freeListStaysWithinPage_A {st : StateA} {live : List Nat}
    (h : ReachA st live) :
    (∀ i pg, pg ∈ classGet st i → ∀ a ∈ pg.free_list,
      pg.base + 40 ≤ a ∧ a + pg.object_size ≤ pg.base + 4096) ∧
    (∀ p ∈ live, ∀ i pg', pg' ∈ classGet (freeSmallA st p) i →
      (p ∈ pg'.free_list ↔ pg'.base + 40 ≤ p ∧ p < pg'.base + 4096)) := by
  have hInv := ReachA_inv h
  constructor
  · intro i pg hpg a ha
    obtain ⟨-, hWFa⟩ := hInv.2.1 i pg hpg
    obtain ⟨j, hj, haeq⟩ := hWFa.2.2.2.2.2 a ha
    exact ⟨(cell_mask hWFa hj haeq).2.1, (cell_mask hWFa hj haeq).2.2⟩
  · intro p hp i pg' hpg'
    obtain ⟨hpost, i0, pgp, hpm, ⟨jc, hjc, hpc⟩, hmask, hpush, hnopush⟩ :=
      freeSmallA_inv hInv hp
    obtain ⟨-, hWF'⟩ := hpost.2.1 i pg' hpg'
    have hos_pos : 0 < pg'.object_size := by
      rw [hWF'.1]
      exact get_object_size_pos i
    constructor
    · intro hmem
      obtain ⟨j, hj, haeq⟩ := hWF'.2.2.2.2.2 p hmem
      have hbd := cell_mask hWF' hj haeq
      omega
    · rintro ⟨hb1, hb2⟩
      have hbm : pg'.base % 4096 = 0 := hWF'.2.1
      have hmp : maskPage p = pg'.base := by
        unfold maskPage
        omega
      rw [classGet_freeSmallA] at hpg'
      obtain ⟨qg, hq, hqe⟩ := List.mem_map.mp hpg'
      have hqb : qg.base = pgp.base := by
        have h1 : qg.base = pg'.base := by
          rw [← hqe]
          exact ((pushCellA_fields p qg).1).symm
        rw [h1, ← hmp, hmask]
      obtain ⟨hii, hqq⟩ := page_unique hInv hq hpm hqb
      rw [hqq, hpush] at hqe
      rw [← hqe]
      exact List.mem_cons_self _ _

/-! ## Claim C5: LIFO reuse -/

/-- Claim C5 (amended): after releasing a live cell `p`, the next
allocation of `p`'s class returns exactly `p`, provided every page before
`p`'s page in the class's page list is exhausted (`free_count = 0`) — in
particular whenever the class has a single page.  In general variant A's
`malloc` pops from the first page of the class with free cells, which
need not be the page of the just-released cell: see the counterexample. -/
theorem lifoWhenPageFirst_A {st : StateA} {live : List Nat} {p n i0 : Nat}
    {pre : List PageA} {pgp : PageA} {suf : List PageA} {fb : Option Nat}
    (h : ReachA st live) (hp : p ∈ live)
    (hcls : classGet st i0 = pre ++ pgp :: suf)
    (hcell : ∃ j, j < pgp.num_objects ∧ p = cellAddr pgp.base pgp.object_size j)
    (hpre : ∀ q ∈ pre, q.free_count = 0)
    (hn1 : 1 ≤ n) (hn2 : n ≤ 1024)
    (hcls_n : (get_size_class n).toNat = i0) :
    (mallocSmallA (freeSmallA st p) n fb).1 = some p := by
  have hInv := ReachA_inv h
  obtain ⟨jc, hjc, hpc⟩ := hcell
  have hpm : pgp ∈ classGet st i0 := by
    rw [hcls]
    exact List.mem_append_right _ (List.mem_cons_self _ _)
  obtain ⟨i1, pg1, hpm1, ⟨j1, hj1, hpc1⟩, hmask1, hpush1, hnopush1⟩ :=
    (freeSmallA_inv hInv hp).2
  obtain ⟨-, hpWF⟩ := hInv.2.1 i0 pgp hpm
  have hb : pg1.base = pgp.base := by
    have h2 := (cell_mask hpWF hjc hpc).1
    rw [← hmask1, h2]
  obtain ⟨hii, hpgeq⟩ := page_unique hInv hpm1 hpm hb
  rw [hpgeq] at hpush1
  have hflank := nodup_mid PageA.base pre suf pgp
    (by rw [← hcls]; exact hInv.2.2.1 i0)
  have hpre_map : pre.map (pushCellA p) = pre := by
    have h1 : pre.map (pushCellA p) = pre.map id :=
      List.map_congr_left (fun q hq => hnopush1 i0 q
        (by rw [hcls]; exact List.mem_append_left _ hq)
        (by rw [hb]; exact hflank.1 q hq))
    rw [h1, List.map_id]
  have hsuf_map : suf.map (pushCellA p) = suf := by
    have h1 : suf.map (pushCellA p) = suf.map id :=
      List.map_congr_left (fun q hq => hnopush1 i0 q
        (by rw [hcls]; exact List.mem_append_right _ (List.mem_cons_of_mem _ hq))
        (by rw [hb]; exact hflank.2 q hq))
    rw [h1, List.map_id]
  have hclsfree : classGet (freeSmallA st p) i0 =
      pre ++ { pgp with free_list := p :: pgp.free_list, free_count := pgp.free_count + 1 } :: suf := by
    rw [classGet_freeSmallA, hcls, List.map_append, List.map_cons,
      hpre_map, hsuf_map, hpush1]
  have hpop := @popFirstFree_decomp pre
    ({ pgp with free_list := p :: pgp.free_list, free_count := pgp.free_count + 1 })
    suf p pgp.free_list hpre (by simp) rfl
  simp only [mallocSmallA, hcls_n, hclsfree, hpop]

/-! ## Claim C9: alignment of small allocations -/

/-- Divisibility facts for the word-or-block alignment of each class. -/
theorem min_div_facts : ∀ i, i ≤ 9 →
    Nat.min (get_object_size i) 8 ∣ 40 ∧
    Nat.min (get_object_size i) 8 ∣ get_object_size i ∧
    Nat.min (get_object_size i) 8 ∣ 4096 ∧
    0 < Nat.min (get_object_size i) 8 ∧
    (4 < get_object_size i → Nat.min (get_object_size i) 8 = 8) := by
  decide

/-- Claim C9 (amended): in every reachable state, a small allocation of
`n` bytes returns a pointer aligned to `min(block size, word size)`: word
(8-byte) aligned whenever `n > 4` (classes 2-9), but only 2- or 4-byte
aligned for the 2- and 4-byte classes, since cells sit at
`base + 40 + j*s`.  The claim's unconditional word alignment fails for
class 0: see the counterexample. -/
theorem smallAllocAlignment_A {st : StateA} {live : List Nat} {n : Nat}
    {fb : Option Nat} (h : ReachA st live)
    (hn1 : 1 ≤ n) (hn2 : n ≤ 1024)
    (hfb : ∀ b, fb = some b → FreshA st b) :
    ∀ a, (mallocSmallA st n fb).1 = some a →
      a % Nat.min (get_object_size (get_size_class n).toNat) 8 = 0 ∧
      (4 < n → a % 8 = 0) := by
  intro a ha
  have heq : mallocSmallA st n fb = (some a, (mallocSmallA st n fb).2) := by
    rw [← ha]
  obtain ⟨-, base, j, hbm, hj, haeq⟩ :=
    mallocSmallA_inv (ReachA_inv h) hn1 hn2 hfb heq
  have hi9 : (get_size_class n).toNat ≤ 9 := (gsc_smallest n hn2 hn1).2.1
  obtain ⟨hd40, hds, hd4096, hdpos, hd8⟩ := min_div_facts _ hi9
  have hdvd : Nat.min (get_object_size (get_size_class n).toNat) 8 ∣ a := by
    rw [haeq]
    unfold cellAddr
    refine Nat.dvd_add (Nat.dvd_add ?_ hd40) (Dvd.dvd.mul_left hds j)
    exact dvd_trans hd4096 (Nat.dvd_of_mod_eq_zero hbm)
  constructor
  · exact Nat.mod_eq_zero_of_dvd hdvd
  · intro hn4
    have hns : n ≤ get_object_size (get_size_class n).toNat :=
      (gsc_smallest n hn2 hn1).2.2.1
    have h8 := hd8 (by omega)
    rw [← h8]
    exact Nat.mod_eq_zero_of_dvd hdvd

/-! ### Concrete variant A states for witnesses and counterexamples -/

/-- Any page-aligned base is fresh for the empty initial state. -/
theorem freshInitA (b : Nat) (hb : b % 4096 = 0) : FreshA initA b :=
  ⟨hb, fun _ pg h => by
    rw [classGet_initA] at h
    exact absurd h (List.not_mem_nil pg)⟩

/-- The variant A state after one 1024-byte allocation from a fresh page
at 4096: the class 9 page holds cells 4136, 5160, 6184, the head cell
6184 has been issued, and 5160, 4136 remain free. -/
def c5State : StateA :=
  ⟨[[], [], [], [], [], [], [], [], [],
    [{ base := 4096, object_size := 1024, num_objects := 3, free_count := 2, free_list := [5160, 4136] }]]⟩

/-- `c5State` with live pointer 6184 is reachable. -/
theorem c5State_reach : ReachA c5State [6184] :=
  @ReachA.alloc initA [] 1024 4096 6184 c5State ReachA.init (by decide)
    (by decide) (freshInitA 4096 (by decide)) (by decide)

/-- Claim C1 witness: the free-list containment and the
release-to-originating-page property at the reachable state `c5State`
with live pointer 6184. -/
theorem freeListStaysWithinPage_A_witness :
    (∀ i pg, pg ∈ classGet c5State i → ∀ a ∈ pg.free_list,
      pg.base + 40 ≤ a ∧ a + pg.object_size ≤ pg.base + 4096) ∧
    (∀ p ∈ [6184], ∀ i pg', pg' ∈ classGet (freeSmallA c5State p) i →
      (p ∈ pg'.free_list ↔ pg'.base + 40 ≤ p ∧ p < pg'.base + 4096)) :=
  freeListStaysWithinPage_A c5State_reach

/-- Claim C5 witness: in the single-page state `c5State`, releasing 6184
and allocating 1024 bytes again returns exactly 6184. -/
theorem lifoWhenPageFirst_A_witness :
    6184 ∈ [6184] ∧
    (mallocSmallA (freeSmallA c5State 6184) 1024 none).1 = some 6184 :=
  ⟨by decide, @lifoWhenPageFirst_A c5State [6184] 6184 1024 9 []
    ({ base := 4096, object_size := 1024, num_objects := 3, free_count := 2, free_list := [5160, 4136] }) [] none
    c5State_reach (by decide) (by decide) ⟨2, by decide, by decide⟩
    (fun q hq => absurd hq (List.not_mem_nil q)) (by decide) (by decide)
    (by decide)⟩

/-- Claim C5 counterexample: the class 9 page at 4096 is exhausted (cells
6184, 5160, 4136 issued), a fourth allocation provisions the page at 8192
and issues 10280; cell 4136 is then released, but the next 1024-byte
allocation walks the class's page list, finds the newer page 8192 first
and returns its head cell 9256 — not the just-released 4136. -/
theorem lifoFailsAcrossPages_A_cex :
    (runA initA [OpA.alloc 1024 (some 4096), OpA.alloc 1024 none,
      OpA.alloc 1024 none, OpA.alloc 1024 (some 8192),
      OpA.release 4136, OpA.alloc 1024 (some 12288)]).2 =
      [some 6184, some 5160, some 4136, some 10280, none, some 9256] ∧
    (get_size_class 1024).toNat = 9 ∧ maskPage 4136 = 4096 ∧
    ¬ (9256 : Nat) = 4136 := by
  decide

/-- Claim C9 witness: the first 1024-byte allocation returns 6184, which
is word aligned as the amended claim states for classes of block size at
least 8. -/
theorem smallAllocAlignment_A_witness :
    (mallocSmallA initA 1024 (some 4096)).1 = some 6184 ∧
    (6184 : Nat) % Nat.min (get_object_size (get_size_class 1024).toNat) 8 = 0 ∧
    (4 < 1024 → (6184 : Nat) % 8 = 0) :=
  ⟨by decide,
    (smallAllocAlignment_A ReachA.init (by decide) (by decide)
      (fun b hb => Option.some.inj hb ▸ freshInitA 4096 (by decide)) 6184
      (by decide)).1,
    (smallAllocAlignment_A ReachA.init (by decide) (by decide)
      (fun b hb => Option.some.inj hb ▸ freshInitA 4096 (by decide)) 6184
      (by decide)).2⟩

/-- Claim C9 counterexample: the very first allocation of 1 byte (class
0, 2-byte cells) returns the page's last cell `4096 + 40 + 2027 * 2 =
8190`, which is not word aligned (`8190 % 8 = 6`). -/
theorem smallAllocMisaligned_A_cex :
    (mallocSmallA initA 1 (some 4096)).1 = some 8190 ∧
    ¬ (8190 : Nat) % 8 = 0 := by
  decide

/-! ## Claim C3: zero-byte allocation -/

/-- The `malloc` of `src/libmyalloc.c` (lines 7-21): null on a zero-byte
request, then dispatch on `size_to_class` to the large or small path.
The two paths (`allocate_small`, `allocate_large`) are declared in
`allocator.h` but their definitions are not part of the repository's
sources, so they are oracle parameters here; the zero-size check precedes
both. -/
def mallocLib (allocate_small allocate_large : Nat → Option Nat)
    (size : Nat) : Option Nat :=
  if size = 0 then none
  else if size_to_class size = -1 then allocate_large size
  else allocate_small size

/-- Claim C3 (amended): variant A's `malloc` and libmyalloc's `malloc`
return null on a zero-byte request with the allocator state unchanged
and without invoking any allocation path.  (Variant B's `malloc`, also
cited, upgrades 0 to 1 and allocates: see the counterexample.) -/
theorem mallocZeroReturnsNull_A_lib :
    (∀ st fresh, mallocA st 0 fresh = (none, st)) ∧
    (∀ f g, mallocLib f g 0 = none) :=
  ⟨fun _ _ => rfl, fun _ _ => rfl⟩

/-- Claim C8 counterexample: variant A's large path returns
`base + 16 = 4112` for a 2000-byte request but records nothing in the
allocator state — there is no global large-region list to prepend to, and
no `prev` link to update (the same holds for variant B). -/
theorem largeAllocNoList_A_cex :
    (mallocA initA 2000 (some 4096)).1 = some 4112 ∧
    (mallocA initA 2000 (some 4096)).2 = initA := by
  decide

/-! ## Variant C: the doubly linked large-region list (part_002) -/

/-- A variant C `large_block_header_t`: total mapped size and the
doubly linked `next` / `prev` pointers, modelled as optional base
addresses. -/
structure LargeNodeC where
  total_size : Nat
  next : Option Nat
  prev : Option Nat
deriving DecidableEq

/-- Variant C global large-allocation state: `large_blocks_head` and the
headers installed at the live mapping bases. -/
structure LargeStateC where
  head : Option Nat
  nodes : List (Nat × LargeNodeC)
deriving DecidableEq

/-- Read the header at mapping base `b`. -/
def lookupNodeC (st : LargeStateC) (b : Nat) : Option LargeNodeC :=
  (st.nodes.find? (fun x => x.1 == b)).map Prod.snd

/-- Overwrite the `prev` field of the header at base `b`. -/
def setPrevC (nodes : List (Nat × LargeNodeC)) (b : Nat)
    (pr : Option Nat) : List (Nat × LargeNodeC) :=
  nodes.map (fun x => if x.1 == b then (x.1, { x.2 with prev := pr }) else x)

/-- Variant C large mapping length: the smallest number of whole pages
holding `size + sizeof(large_block_header_t)` with the 24-byte header. -/
def allocSizeC (size : Nat) : Nat := (size + 24 + 4095) / 4096 * 4096

/-- The large path of variant C `malloc` (part_002), at a successful
anonymous mapping base `fresh`: map `allocSizeC size` bytes, install the
header `{total_size := allocSizeC size, next := head, prev := none}` at
the base, update the previous head's `prev` to the new base when a head
exists, move the head, and return `fresh + 24`. -/
def mallocLargeC (st : LargeStateC) (size fresh : Nat) : Nat × LargeStateC :=
  let alloc_size := allocSizeC size
  let nodes1 :=
    match st.head with
    | some h => setPrevC st.nodes h (some fresh)
    | none => st.nodes
  (fresh + 24,
    { head := some fresh,
      nodes := (fresh, ⟨alloc_size, st.head, none⟩) :: nodes1 })

/-- `find?` after a `prev` overwrite at the same key. -/
theorem find_setPrevC_self : ∀ (nodes : List (Nat × LargeNodeC)) (b : Nat)
    (pr : Option Nat),
    (setPrevC nodes b pr).find? (fun x => x.1 == b) =
      (nodes.find? (fun x => x.1 == b)).map
        (fun x => (x.1, { x.2 with prev := pr })) := by
  intro nodes b pr
  induction nodes with
  | nil => rfl
  | cons hd tlx ih =>
    obtain ⟨k, nd⟩ := hd
    simp only [setPrevC, List.map_cons] at ih ⊢
    by_cases hk : k = b
    · subst hk
      rw [if_pos (by simp)]
      rw [List.find?_cons_of_pos _ (by simp), List.find?_cons_of_pos _ (by simp)]
      rfl
    · rw [if_neg (by simpa using hk)]
      rw [List.find?_cons_of_neg _ (by simpa using hk),
        List.find?_cons_of_neg _ (by simpa using hk)]
      exact ih

/-- `find?` at another key is unaffected by a `prev` overwrite. -/
theorem find_setPrevC_ne : ∀ (nodes : List (Nat × LargeNodeC)) (b c : Nat)
    (pr : Option Nat), c ≠ b →
    (setPrevC nodes b pr).find? (fun x => x.1 == c) =
      nodes.find? (fun x => x.1 == c) := by
  intro nodes b c pr hcb
  induction nodes with
  | nil => rfl
  | cons hd tlx ih =>
    obtain ⟨k, nd⟩ := hd
    simp only [setPrevC, List.map_cons] at ih ⊢
    by_cases hk : k = b
    · subst hk
      rw [if_pos (by simp)]
      rw [List.find?_cons_of_neg _ (by simpa using fun h => hcb h.symm),
        List.find?_cons_of_neg _ (by simpa using fun h => hcb h.symm)]
      exact ih
    · rw [if_neg (by simpa using hk)]
      by_cases hkc : k = c
      · subst hkc
        rw [List.find?_cons_of_pos _ (by simp), List.find?_cons_of_pos _ (by simp)]
      · rw [List.find?_cons_of_neg _ (by simpa using hkc),
          List.find?_cons_of_neg _ (by simpa using hkc)]
        exact ih

/-- Claim C8: for every large request (`n > 1024`) and fresh mapping
base, variant C's large path maps exactly the smallest multiple of the
4096-byte page size holding the payload plus the 24-byte region header,
records that mapped length in the header installed at the mapping base,
prepends the region to the global large-region list — updating the
previous head's `prev` link when one exists, leaving all other headers
untouched — and returns `base + 24`. -/
theorem largeAllocPrependsList_C :
    ∀ (st : LargeStateC) (size fresh : Nat), 1024 < size →
      fresh ∉ st.nodes.map Prod.fst →
      (mallocLargeC st size fresh).1 = fresh + 24 ∧
      (mallocLargeC st size fresh).2.head = some fresh ∧
      lookupNodeC (mallocLargeC st size fresh).2 fresh =
        some ⟨allocSizeC size, st.head, none⟩ ∧
      allocSizeC size % 4096 = 0 ∧
      size + 24 ≤ allocSizeC size ∧
      allocSizeC size < size + 24 + 4096 ∧
      (∀ h nd, st.head = some h → lookupNodeC st h = some nd →
        lookupNodeC (mallocLargeC st size fresh).2 h =
          some { nd with prev := some fresh }) ∧
      (∀ b, b ≠ fresh → st.head ≠ some b →
        lookupNodeC (mallocLargeC st size fresh).2 b = lookupNodeC st b) := by
  intro st size fresh hsize hfresh
  refine ⟨rfl, rfl, ?_, ?_, ?_, ?_, ?_, ?_⟩
  · unfold lookupNodeC mallocLargeC
    simp
  · unfold allocSizeC
    omega
  · unfold allocSizeC
    omega
  · unfold allocSizeC
    omega
  · intro h nd hhead hnd
    have hne : h ≠ fresh := by
      intro hcon
      subst hcon
      unfold lookupNodeC at hnd
      cases hfind : st.nodes.find? (fun x => x.1 == h) with
      | none =>
        rw [hfind] at hnd
        simp at hnd
      | some x =>
        have hx := List.find?_some hfind
        have hxmem := List.mem_of_find?_eq_some hfind
        rw [beq_iff_eq] at hx
        exact hfresh (hx ▸ List.mem_map_of_mem Prod.fst hxmem)
    unfold lookupNodeC mallocLargeC
    simp only [hhead]
    rw [List.find?_cons_of_neg _ (by simpa using fun hc => hne hc.symm)]
    rw [find_setPrevC_self]
    unfold lookupNodeC at hnd
    cases hfind : st.nodes.find? (fun x => x.1 == h) with
    | none =>
      rw [hfind] at hnd
      simp at hnd
    | some x =>
      rw [hfind] at hnd
      simp at hnd
      simp [hnd]
  · intro b hbf hbh
    unfold lookupNodeC mallocLargeC
    simp only
    rw [List.find?_cons_of_neg _ (by simpa using fun hc => hbf hc.symm)]
    cases hhead : st.head with
    | none => rfl
    | some h =>
      have hbh' : b ≠ h := by
        intro hcon
        subst hcon
        exact hbh hhead
      rw [find_setPrevC_ne st.nodes h b (some fresh) hbh']

/-- Claim C8 witness: with one region at 4096 already listed, a
5000-byte allocation at fresh base 12288 returns `12288 + 24`, becomes
the new head with `total_size = 8192` (two pages for 5024 bytes), and
rewires the old head's `prev` to it. -/
theorem largeAllocPrependsList_C_witness :
    1024 < 5000 ∧
    (mallocLargeC ⟨some 4096, [(4096, ⟨4096, none, none⟩)]⟩ 5000 12288).1 =
      12288 + 24 ∧
    (mallocLargeC ⟨some 4096, [(4096, ⟨4096, none, none⟩)]⟩ 5000 12288).2.head =
      some 12288 ∧
    allocSizeC 5000 = 8192 ∧
    lookupNodeC (mallocLargeC ⟨some 4096, [(4096, ⟨4096, none, none⟩)]⟩
      5000 12288).2 4096 = some ⟨4096, none, some 12288⟩ :=
  ⟨by decide,
    (largeAllocPrependsList_C ⟨some 4096, [(4096, ⟨4096, none, none⟩)]⟩
      5000 12288 (by decide) (by decide)).1,
    (largeAllocPrependsList_C ⟨some 4096, [(4096, ⟨4096, none, none⟩)]⟩
      5000 12288 (by decide) (by decide)).2.1,
    by decide,
    by
      have hw := (largeAllocPrependsList_C ⟨some 4096, [(4096, ⟨4096, none, none⟩)]⟩
        5000 12288 (by decide) (by decide)).2.2.2.2.2.2.1 4096 ⟨4096, none, none⟩
        rfl (by decide)
      simpa using hw⟩
